import Mathlib

/-!
Verification development for the `transferable-object` library
(`src/transferable-object.ts`): a shallow embedding in Lean 4 of the
library's export engine (`getExport`), import engine (`runFromFile`,
`parseSQLStatements`, `executeStatementSafely`, `safeExec`), the two-pass
exact-size dump (`dump`) and the credential gate (`checkAuth`),
together with theorems settling the specification's claims about them.

Conventions of the embedding:
* JavaScript strings are modelled as `List Char` (`Str`).  All string
  primitives used by the source (`trim`, `split("\n")`, `startsWith`,
  `endsWith`, `lastIndexOf`, `substring`, `replace`, `toLowerCase`,
  regular-expression tests) are re-implemented structurally below with
  JS semantics; inputs in all claims are ASCII, so the ASCII fragment of
  the Unicode behaviour is what matters.
* The Durable Object SQLite store is an external collaborator; it is
  modelled by an explicit state type plus an `exec` function returning
  either a written-row count or a thrown error message (statements are
  atomic, so a throwing statement leaves the state unchanged).
* Streams are modelled as lists of chunks; `TextDecoder` with
  `stream:true` reassembles multi-byte sequences across chunk edges, so
  chunking is modelled at character granularity.
* Wall-clock time (`new Date().toISOString()`) is passed explicitly as
  the timestamp argument of the export model: each invocation of
  `getExport` samples its own timestamp.
-/

/-- JavaScript strings, modelled as lists of characters. -/
abbrev Str := List Char

/-- The whitespace class of JS `String.prototype.trim` / regexp `\s`
(ASCII fragment: space, tab, LF, VT, FF, CR). -/
def jsWs (c : Char) : Bool :=
  c == ' ' || c == '\t' || c == '\n' || c == '\x0b' || c == '\x0c' || c == '\r'

/-- Remove trailing characters satisfying `jsWs` (right half of `trim`). -/
def trimRight (l : Str) : Str := (l.reverse.dropWhile jsWs).reverse

/-- JS `String.prototype.trim` (on the ASCII whitespace fragment). -/
def jsTrim (l : Str) : Str := trimRight (l.dropWhile jsWs)

/-- JS `a.startsWith(pat)` (case sensitive). -/
def startsWithJS (pat l : Str) : Bool := l.take pat.length == pat

/-- Lower-case every character (ASCII case folding, as in regexp `/i`). -/
def lowerStr (l : Str) : Str := l.map Char.toLower

/-- Case-insensitive `startsWith`, the anchored part of a `/.../i` test. -/
def startsWithCI (pat l : Str) : Bool := lowerStr (l.take pat.length) == lowerStr pat

/-- Whether `sub` occurs as a contiguous substring of `l`
(JS `String.prototype.includes` / unanchored regexp search). -/
def containsSub (sub : Str) : Str → Bool
  | [] => startsWithJS sub []
  | c :: rest => startsWithJS sub (c :: rest) || containsSub sub rest

/-- Whether `l` contains a semicolon (`lastIndexOf(";") !== -1`). -/
def hasSemi (l : Str) : Bool := l.contains ';'

/-- The text strictly after the last `';'` of `l`
(JS `buffer.substring(buffer.lastIndexOf(";") + 1)` when a `';'` exists). -/
def afterLastSemi (l : Str) : Str := (l.reverse.takeWhile (· != ';')).reverse

/-- Every character of `l` is JS whitespace. -/
def allWs (l : Str) : Bool := l.all jsWs

/-- JS `String(n)` for a natural number (decimal digits), by fuelled
division; the fuel `n + 1` always suffices. -/
def natToStrAux : Nat → Nat → Str
  | 0, _ => []
  | fuel + 1, n =>
    if n < 10 then [Char.ofNat (48 + n)]
    else natToStrAux fuel (n / 10) ++ [Char.ofNat (48 + n % 10)]

/-- JS decimal rendering of a natural number. -/
def natToStr (n : Nat) : Str := natToStrAux (n + 1) n

/-- JS `String(v)` for an integral number value. -/
def intToStr (i : Int) : Str :=
  if i < 0 then '-' :: natToStr i.natAbs else natToStr i.natAbs

/-- One lower-case hexadecimal digit (`b.toString(16)` digits). -/
def hexDigit (n : Nat) : Char :=
  if n < 10 then Char.ofNat (48 + n) else Char.ofNat (87 + n)

/-- `b.toString(16).padStart(2, "0")` for one byte. -/
def hexByte (b : Nat) : Str := [hexDigit (b / 16 % 16), hexDigit (b % 16)]

/-- UTF-8 byte length of a string (`new TextEncoder().encode(s).length`). -/
def byteSize (l : Str) : Nat := (l.map Char.utf8Size).sum

/-! ## Credential gate (`checkAuth`, lines 169-189 of the source)

`atob` follows the WHATWG forgiving-base64 algorithm: strip ASCII
whitespace, allow up to two trailing `=` when the length is a multiple
of four, reject a remaining length of `4k+1` and any character outside
the base64 alphabet, and emit one character per decoded byte. -/

/-- ASCII whitespace stripped by forgiving-base64 (TAB LF FF CR SP). -/
def asciiWs (c : Char) : Bool :=
  c == '\t' || c == '\n' || c == '\x0c' || c == '\r' || c == ' '

/-- Value of one base64 alphabet character. -/
def b64Val (c : Char) : Option Nat :=
  if 'A' ≤ c && c ≤ 'Z' then some (c.toNat - 65)
  else if 'a' ≤ c && c ≤ 'z' then some (c.toNat - 97 + 26)
  else if '0' ≤ c && c ≤ '9' then some (c.toNat - 48 + 52)
  else if c == '+' then some 62
  else if c == '/' then some 63
  else none

/-- Decode every character of a base64 payload, or fail on the first
invalid one. -/
def b64Vals : Str → Option (List Nat)
  | [] => some []
  | c :: rest =>
    match b64Val c, b64Vals rest with
    | some v, some vs => some (v :: vs)
    | _, _ => none

/-- Reassemble 6-bit groups into bytes (lengths `4k`, `4k+2`, `4k+3`). -/
def b64Assemble : List Nat → List Nat
  | a :: b :: c :: d :: rest =>
    (a * 4 + b / 16) :: ((b % 16) * 16 + c / 4) :: ((c % 4) * 64 + d) :: b64Assemble rest
  | [a, b] => [a * 4 + b / 16]
  | [a, b, c] => [a * 4 + b / 16, (b % 16) * 16 + c / 4]
  | [_] => []
  | [] => []

/-- Strip up to two trailing `'='` characters. -/
def b64StripEq (l : Str) : Str :=
  let l1 := if l.getLast? == some '=' then l.dropLast else l
  if l1.getLast? == some '=' then l1.dropLast else l1

/-- JS `atob`: forgiving-base64 decode to a byte-per-character string,
`none` modelling the thrown `InvalidCharacterError`. -/
def atob (l : Str) : Option Str :=
  let t0 := l.filter (fun c => !asciiWs c)
  let t := if t0.length % 4 == 0 then b64StripEq t0 else t0
  if t.length % 4 == 1 then none
  else match b64Vals t with
    | some vs => some ((b64Assemble vs).map Char.ofNat)
    | none => none

/-- The `TransferableConfig` of the source (`secret?`, `isReadonlyPublic?`). -/
structure TransferableConfig where
  secret : Option Str
  isReadonlyPublic : Bool

/-- The fragment of a `Request` that `checkAuth` inspects: the
`Authorization` header and the `apiKey` query parameter of the URL. -/
structure RequestModel where
  authHeader : Option Str
  apiKey : Option Str

/-- JS truthiness of `this.config.secret`: both `undefined` and the
empty string count as "no secret configured". -/
def secretTruthy : Option Str → Bool
  | none => false
  | some s => !s.isEmpty

/-- The `credentials` variable of `checkAuth`: defined only when the
header exists, starts with `"Basic"` and the remainder after the first
six characters decodes as base64 (`atob` failure is caught and leaves
`credentials` undefined). -/
def basicCredentials (r : RequestModel) : Option Str :=
  match r.authHeader with
  | some h => if startsWithJS "Basic".data h then atob (h.drop 6) else none
  | none => none

/-- `Transfer.checkAuth(request, requireAuth)` (source lines 169-189). -/
def checkAuth (cfg : TransferableConfig) (r : RequestModel) (requireAuth : Bool) : Bool :=
  match cfg.secret with
  | none => true
  | some s =>
    if s.isEmpty then true
    else if !requireAuth && cfg.isReadonlyPublic then true
    else if basicCredentials r == some s then true
    else if r.apiKey == some s then true
    else false

/-! ### Claims C8 and C10 -/

/-- **C8.** `checkAuth` authorizes everything when no secret is
configured (including the degenerate empty-string secret, which is
falsy in JS); with a secret configured it authorizes a request not
requiring auth when `isReadonlyPublic` is set, and otherwise authorizes
exactly the requests whose decoded Basic credentials or `apiKey` query
parameter equal the secret. -/
theorem C8_checkAuth_spec (cfg : TransferableConfig) (r : RequestModel) (ra : Bool) :
    (secretTruthy cfg.secret = false → checkAuth cfg r ra = true) ∧
    (∀ s, cfg.secret = some s → s ≠ [] → ra = false → cfg.isReadonlyPublic = true →
      checkAuth cfg r ra = true) ∧
    (∀ s, cfg.secret = some s → s ≠ [] → (ra = true ∨ cfg.isReadonlyPublic = false) →
      (checkAuth cfg r ra = true ↔ basicCredentials r = some s ∨ r.apiKey = some s)) := by
  refine ⟨?_, ?_, ?_⟩
  · intro h
    cases hs : cfg.secret with
    | none => simp [checkAuth, hs]
    | some s =>
      rw [hs] at h
      simp only [secretTruthy, Bool.not_eq_false', List.isEmpty_iff] at h
      simp [checkAuth, hs, h]
  · intro s hs hne hra hpub
    have hemp : s.isEmpty = false := by
      cases s with
      | nil => exact absurd rfl hne
      | cons a l => rfl
    simp [checkAuth, hs, hemp, hra, hpub]
  · intro s hs hne hcase
    have hemp : s.isEmpty = false := by
      cases s with
      | nil => exact absurd rfl hne
      | cons a l => rfl
    have hbranch : (!ra && cfg.isReadonlyPublic) = false := by
      rcases hcase with h | h <;> simp [h]
    simp only [checkAuth, hs, hemp, Bool.false_eq_true, if_false, hbranch]
    constructor
    · intro h
      by_cases h1 : basicCredentials r == some s
      · exact Or.inl (by simpa using h1)
      · simp only [h1, if_false] at h
        by_cases h2 : r.apiKey == some s
        · exact Or.inr (by simpa using h2)
        · simp [h2] at h
    · rintro (h | h)
      · simp [h]
      · by_cases h1 : basicCredentials r == some s <;> simp [h1, h]

/-- Witness for C8: with secret `user:pass`, a request carrying
`Authorization: Basic dXNlcjpwYXNz` (the base64 of `user:pass`) is
authorized on the auth-required path. -/
theorem C8_checkAuth_spec_witness :
    checkAuth ⟨some "user:pass".data, false⟩
      ⟨some "Basic dXNlcjpwYXNz".data, none⟩ true = true :=
  ((C8_checkAuth_spec ⟨some "user:pass".data, false⟩
      ⟨some "Basic dXNlcjpwYXNz".data, none⟩ true).2.2
    "user:pass".data rfl (by decide) (Or.inl rfl)).mpr (Or.inl (by decide))

/-- **C10.** `checkAuth` is total on malformed base64: a header that
starts with `Basic` but whose remainder does not decode is treated as
absent credentials (the `atob` throw is caught), so with a secret
configured and no matching `apiKey` the request is denied, not an
exception. -/
theorem C10_checkAuth_invalid_base64 (cfg : TransferableConfig) (r : RequestModel)
    (s h : Str) (hs : cfg.secret = some s) (hne : s ≠ [])
    (hh : r.authHeader = some h) (hb : startsWithJS "Basic".data h = true)
    (hdec : atob (h.drop 6) = none) (hk : r.apiKey ≠ some s) :
    checkAuth cfg r true = false := by
  have hemp : s.isEmpty = false := by
    cases s with
    | nil => exact absurd rfl hne
    | cons a l => rfl
  have hcred : basicCredentials r = none := by
    simp [basicCredentials, hh, hb, hdec]
  have hk' : (r.apiKey == some s) = false := by
    simpa using hk
  simp [checkAuth, hs, hemp, hcred, hk']

/-- Witness for C10: secret `s3cret`, header `Basic %%%%` (characters
outside the base64 alphabet), no query parameter: denied. -/
theorem C10_checkAuth_invalid_base64_witness :
    checkAuth ⟨some "s3cret".data, true⟩ ⟨some "Basic %%%%".data, none⟩ true = false :=
  C10_checkAuth_invalid_base64 ⟨some "s3cret".data, true⟩
    ⟨some "Basic %%%%".data, none⟩ "s3cret".data "Basic %%%%".data
    rfl (by decide) rfl (by decide) (by decide) (by decide)

/-! ## Import engine

`parseSQLStatements` (source lines 752-778) splits its input on `"\n"`,
skips comment (`--`) and blank lines, accumulates the others into the
current statement and flushes the trimmed accumulation whenever the
trimmed line ends with `";"`; a non-terminated trailing accumulation is
discarded.  The JS line loop is embedded as a fold over characters with
an explicit current-line buffer (`PState.curLine`): the segment after
the last `"\n"` is processed as the final line exactly as
`split("\n")` yields it, and a trailing `"\n"` yields a final empty
segment, which the blank-line skip ignores. -/

/-- Parser state: the line being assembled, the statement being
accumulated (`currentStatement`), and the emitted statements. -/
structure PState where
  curLine : Str
  curStmt : Str
  acc : List Str
deriving DecidableEq

/-- Process one complete line of `parseSQLStatements`. -/
def lineDone (st : PState) : PState :=
  let t := jsTrim st.curLine
  if t.take 2 == "--".data || t.isEmpty then { st with curLine := [] }
  else
    let cur := st.curStmt ++ st.curLine ++ ['\n']
    if t.getLast? == some ';' then
      let s := jsTrim cur
      { curLine := [], curStmt := [],
        acc := st.acc ++ (if s.isEmpty then [] else [s]) }
    else { st with curLine := [], curStmt := cur }

/-- Consume one character: a newline completes the current line. -/
def pstep (st : PState) (c : Char) : PState :=
  if c == '\n' then lineDone st else { st with curLine := st.curLine ++ [c] }

/-- Run the splitter from an arbitrary state. -/
def parseFold (st : PState) (l : Str) : PState := l.foldl pstep st

/-- `parseSQLStatements(text)`: the statements emitted over the whole
text, the final (possibly unterminated) segment included as a line. -/
def parse (l : Str) : List Str :=
  (lineDone (parseFold ⟨[], [], []⟩ l)).acc

/-! Statement classification of `executeStatementSafely`
(source lines 780-827). -/

/-- `/^(BEGIN|COMMIT|ROLLBACK|PRAGMA)/i` on the trimmed statement. -/
def isCtrlStmt (t : Str) : Bool :=
  startsWithCI "BEGIN".data t || startsWithCI "COMMIT".data t ||
  startsWithCI "ROLLBACK".data t || startsWithCI "PRAGMA".data t

/-- Consume a case-insensitive literal. -/
def eatCI (pat l : Str) : Option Str :=
  if startsWithCI pat l then some (l.drop pat.length) else none

/-- Consume regexp `\s+` (at least one whitespace, then greedily all). -/
def eatWs1 : Str → Option Str
  | [] => none
  | c :: rest => if jsWs c then some (rest.dropWhile jsWs) else none

/-- `/^DROP\s+TABLE/i` on the trimmed statement. -/
def isDropTableStmt (t : Str) : Bool :=
  match eatCI "DROP".data t with
  | some r =>
    match eatWs1 r with
    | some r2 => startsWithCI "TABLE".data r2
    | none => false
  | none => false

/-- `/_cf_/i`: the pattern occurring anywhere in the statement. -/
def containsCfCI (s : Str) : Bool := containsSub "_cf_".data (lowerStr s)

/-- Regexp `\w`. -/
def isWordChar (c : Char) : Bool := c.isAlphanum || c == '_'

/-- The optional group `(?:IF\s+NOT\s+EXISTS\s+)` of the create-table
regexp. -/
def eatIfNotExists (l : Str) : Option Str :=
  match eatCI "IF".data l with
  | none => none
  | some l1 =>
    match eatWs1 l1 with
    | none => none
    | some l2 =>
      match eatCI "NOT".data l2 with
      | none => none
      | some l3 =>
        match eatWs1 l3 with
        | none => none
        | some l4 =>
          match eatCI "EXISTS".data l4 with
          | none => none
          | some l5 => eatWs1 l5

/-- Match `/CREATE\s+TABLE\s+(?:IF\s+NOT\s+EXISTS\s+)?(\w+)/i` anchored
at the start of `l`, returning the capture (with the regexp's
backtracking over the optional group). -/
def matchCreateTableHere (l : Str) : Option Str :=
  match eatCI "CREATE".data l with
  | none => none
  | some l1 =>
    match eatWs1 l1 with
    | none => none
    | some l2 =>
      match eatCI "TABLE".data l2 with
      | none => none
      | some l3 =>
        match eatWs1 l3 with
        | none => none
        | some l4 =>
          let withGroup :=
            match eatIfNotExists l4 with
            | some l5 =>
              let n := l5.takeWhile isWordChar
              if n.isEmpty then none else some n
            | none => none
          match withGroup with
          | some n => some n
          | none =>
            let n := l4.takeWhile isWordChar
            if n.isEmpty then none else some n

/-- The unanchored search of `statement.match(...)`: first position
where the create-table pattern matches. -/
def createTableName : Str → Option Str
  | [] => none
  | c :: rest =>
    match matchCreateTableHere (c :: rest) with
    | some n => some n
    | none => createTableName rest

/-- The `QueryResult` record of the source. -/
structure QueryResult where
  success : Bool
  error : Option Str := none
  warning : Option Str := none
  tableCreated : Option Str := none
  rowsAffected : Option Nat := none
  query : Option Str := none
deriving DecidableEq

/-- The external SQLite store: a state type with statement execution
returning a written-row count or a thrown error message.  SQLite
statements are atomic, so a throwing execution is modelled as leaving
the state unchanged (the caller receives the old state back). -/
structure StoreModel (S : Type) where
  exec : S → Str → Except Str (S × Nat)

/-- `query.substring(0, 100) + (query.length > 100 ? "..." : "")`. -/
def trunc100 (q : Str) : Str :=
  q.take 100 ++ (if 100 < q.length then "...".data else [])

/-- The error text built by `safeExec`'s catch branch. -/
def queryFailedMsg (q e : Str) : Str :=
  "Query failed: \"".data ++ trunc100 q ++ "\" - Error: ".data ++ e

/-- `safeExec`'s error field, with the `SQLITE_AUTH` special case. -/
def safeExecErr (q e : Str) : Str :=
  if containsSub "SQLITE_AUTH".data e then
    "SQLITE_AUTH: Operation not permitted - ".data ++ queryFailedMsg q e
  else queryFailedMsg q e

/-- `Transfer.safeExec` (source lines 202-230). -/
def safeExec {S : Type} (M : StoreModel S) (σ : S) (q : Str) : S × QueryResult :=
  match M.exec σ q with
  | .ok (σ', rows) =>
    (σ', { success := true, rowsAffected := some rows, query := some (trunc100 q) })
  | .error e =>
    (σ, { success := false, error := some (safeExecErr q e), query := some q })

/-- `Transfer.executeStatementSafely` (source lines 780-827): skip
control verbs, `DROP TABLE` and statements mentioning `_cf_`, execute
the rest, and record a created table name on success. -/
def executeStatementSafely {S : Type} (M : StoreModel S) (σ : S) (statement : Str) :
    S × QueryResult :=
  let t := jsTrim statement
  if isCtrlStmt t then
    (σ, { success := true,
          warning := some ("Skipped unsupported statement: ".data ++ t.take 50 ++ "...".data) })
  else if isDropTableStmt t then
    (σ, { success := true,
          warning := some ("Skipped DROP TABLE statement: ".data ++ t.take 50 ++ "...".data) })
  else if containsCfCI t then
    (σ, { success := true,
          warning := some ("Skipped _cf_ table operation: ".data ++ t.take 50 ++ "...".data) })
  else
    let p := safeExec M σ statement
    match createTableName statement, p.2.success with
    | some n, true => (p.1, { p.2 with tableCreated := some n })
    | _, _ => p

/-- Loop state of `runFromFile`: the store plus the accumulators of the
eventual `ImportResult` and the carried-over text buffer. -/
structure IState (S : Type) where
  store : S
  buffer : Str
  executed : Nat
  errors : List Str
  warnings : List Str
  tablesCreated : List Str
  rowsInserted : Nat
deriving DecidableEq

/-- Execute one parsed statement and update the accumulators
(source lines 633-643). -/
def execOne {S : Type} (M : StoreModel S) (st : IState S) (stmt : Str) : IState S :=
  let p := executeStatementSafely M st.store stmt
  let st1 := { st with store := p.1, executed := st.executed + 1 }
  match p.2.error with
  | some e => { st1 with errors := st1.errors ++ [e] }
  | none =>
    let st2 := match p.2.warning with
      | some w => { st1 with warnings := st1.warnings ++ [w] }
      | none => st1
    let st3 := match p.2.tableCreated with
      | some n => { st2 with tablesCreated := st2.tablesCreated ++ [n] }
      | none => st2
    match p.2.rowsAffected with
    | some n => { st3 with rowsInserted := st3.rowsInserted + n }
    | none => st3

/-- Execute a list of parsed statements in order. -/
def execList {S : Type} (M : StoreModel S) (st : IState S) (stmts : List Str) : IState S :=
  stmts.foldl (execOne M) st

/-- One iteration of `runFromFile`'s read loop on an arriving chunk
(source lines 624-644): append to the buffer, parse the whole buffer,
and if the buffer contains a `";"` execute the parsed statements and
keep only the text after the last `";"`. -/
def chunkStep {S : Type} (M : StoreModel S) (st : IState S) (c : Str) : IState S :=
  let buf := st.buffer ++ c
  let stmts := parse buf
  if hasSemi buf then execList M { st with buffer := afterLastSemi buf } stmts
  else { st with buffer := buf }

/-- The `done` branch (source lines 604-621): a non-blank remaining
buffer is re-parsed and its statements executed. -/
def finishStep {S : Type} (M : StoreModel S) (st : IState S) : IState S :=
  if (jsTrim st.buffer).isEmpty then st else execList M st (parse st.buffer)

/-- The `ImportResult` record; the source leaves `errors`/`warnings`
`undefined` when empty, modelled here as the empty list. -/
structure ImportResult where
  success : Bool
  executedStatements : Nat
  errors : List Str
  warnings : List Str
  tablesCreated : List Str
  rowsInserted : Nat
deriving DecidableEq

/-- Initial loop state. -/
def initIState {S : Type} (σ0 : S) : IState S := ⟨σ0, [], 0, [], [], [], 0⟩

/-- Final result assembly (source lines 647-654). -/
def mkResult {S : Type} (st : IState S) : ImportResult :=
  ⟨st.errors.isEmpty, st.executed, st.errors, st.warnings, st.tablesCreated, st.rowsInserted⟩

/-- `Transfer.runFromFile` on a stream of decoded text chunks,
returning the `ImportResult` together with the final store state. -/
def runFromFile {S : Type} (M : StoreModel S) (σ0 : S) (chunks : List Str) :
    ImportResult × S :=
  let st := finishStep M (chunks.foldl (chunkStep M) (initIState σ0))
  (mkResult st, st.store)

/-- A concrete store instance for counterexamples: the state is the log
of executed statements, and every execution succeeds writing one row. -/
def logStore : StoreModel (List Str) := ⟨fun σ q => .ok (σ ++ [q], 1)⟩

/-! ### Basic facts about the splitter and the executor -/

theorem mem_of_mem_trimRight {c : Char} {l : Str} (h : c ∈ trimRight l) : c ∈ l := by
  unfold trimRight at h
  rw [List.mem_reverse] at h
  exact List.mem_reverse.mp ((List.dropWhile_sublist _).mem h)

theorem mem_of_mem_jsTrim {c : Char} {l : Str} (h : c ∈ jsTrim l) : c ∈ l :=
  (List.dropWhile_sublist _).mem (mem_of_mem_trimRight h)

theorem hasSemi_eq_false_iff {l : Str} : hasSemi l = false ↔ ';' ∉ l := by
  simp [hasSemi]

theorem semi_mem_of_trim_getLast {l : Str} (h : (jsTrim l).getLast? = some ';') :
    ';' ∈ l :=
  mem_of_mem_jsTrim (List.mem_of_mem_getLast? h)

/-- When the current line holds no semicolon, completing it cannot flush
a statement: the accumulator is unchanged and the line resets. -/
theorem lineDone_of_no_semi {st : PState} (h : hasSemi st.curLine = false) :
    (lineDone st).acc = st.acc ∧ (lineDone st).curLine = [] := by
  by_cases h1 : ((jsTrim st.curLine).take 2 == "--".data || (jsTrim st.curLine).isEmpty) = true
  · simp [lineDone, h1]
  · have h2 : ¬ ((jsTrim st.curLine).getLast? == some ';') = true := by
      intro hc
      exact hasSemi_eq_false_iff.mp h (semi_mem_of_trim_getLast (by simpa using hc))
    simp only [lineDone]
    rw [if_neg h1, if_neg h2]
    exact ⟨rfl, rfl⟩

theorem parseFold_acc_of_no_semi (l : Str) : ∀ st : PState, hasSemi l = false →
    hasSemi st.curLine = false →
    (parseFold st l).acc = st.acc ∧ hasSemi (parseFold st l).curLine = false := by
  induction l with
  | nil => intro st _ hst; exact ⟨rfl, hst⟩
  | cons c rest ih =>
    intro st hl hst
    have hc : c ≠ ';' := by
      intro hcc
      exact hasSemi_eq_false_iff.mp hl (hcc ▸ List.mem_cons_self c rest)
    have hrest : hasSemi rest = false := by
      rw [hasSemi_eq_false_iff] at hl ⊢
      exact fun hm => hl (List.mem_cons_of_mem c hm)
    have step : parseFold st (c :: rest) = parseFold (pstep st c) rest := rfl
    rw [step]
    by_cases hnl : (c == '\n') = true
    · have hld := lineDone_of_no_semi hst
      have hstep : pstep st c = lineDone st := by simp [pstep, hnl]
      rw [hstep]
      have hcl : hasSemi (lineDone st).curLine = false := by rw [hld.2]; rfl
      have := ih (lineDone st) hrest hcl
      exact ⟨by rw [this.1, hld.1], this.2⟩
    · have hstep : pstep st c = { st with curLine := st.curLine ++ [c] } := by
        simp [pstep, hnl]
      rw [hstep]
      refine ih _ hrest ?_
      rw [hasSemi_eq_false_iff]
      intro hm
      rcases List.mem_append.mp hm with hm | hm
      · exact hasSemi_eq_false_iff.mp hst hm
      · have hsc : ';' = c := by simpa using hm
        exact hc hsc.symm

/-- A chunk with no semicolon yields no statements at all. -/
theorem parse_eq_nil_of_no_semi {l : Str} (h : hasSemi l = false) : parse l = [] := by
  have hf := parseFold_acc_of_no_semi l ⟨[], [], []⟩ h rfl
  have hl := lineDone_of_no_semi hf.2
  unfold parse
  rw [hl.1, hf.1]

/-- The carried-over buffer tail never contains a semicolon. -/
theorem hasSemi_afterLastSemi (l : Str) : hasSemi (afterLastSemi l) = false := by
  rw [hasSemi_eq_false_iff]
  intro hm
  have hm' : ';' ∈ l.reverse.takeWhile (· != ';') := by
    simpa [afterLastSemi] using hm
  have := List.mem_takeWhile_imp hm'
  simp at this

/-- The end-of-stream pass is inert whenever the remaining buffer parses
to no statements. -/
theorem finishStep_of_parse_nil {S : Type} (M : StoreModel S) {st : IState S}
    (h : parse st.buffer = []) : finishStep M st = st := by
  unfold finishStep
  split
  · rfl
  · rw [h]; rfl

/-- A statement that hits none of the three skip conditions. -/
def noSkipB (s : Str) : Bool :=
  !isCtrlStmt (jsTrim s) && !isDropTableStmt (jsTrim s) && !containsCfCI (jsTrim s)

/-- A statement whose execution succeeds in every store state
(state-independent validity, e.g. a syntactically valid INSERT). -/
def IsOkStmt {S : Type} (M : StoreModel S) (s : Str) : Prop :=
  ∀ σ, ∃ σ' n, M.exec σ s = .ok (σ', n)

/-- A statement whose execution throws in every store state
(e.g. a syntax error). -/
def IsErrStmt {S : Type} (M : StoreModel S) (s : Str) : Prop :=
  ∀ σ, ∃ e, M.exec σ s = .error e

/-- Folding plain successful executions over the store (the mutations of
the successfully executed statements, failures leaving no trace). -/
def execGood {S : Type} (M : StoreModel S) (σ : S) (ss : List Str) : S :=
  ss.foldl (fun σ s => match M.exec σ s with | .ok p => p.1 | .error _ => σ) σ

theorem executeStatementSafely_no_skip {S : Type} (M : StoreModel S) (σ : S) {s : Str}
    (h : noSkipB s = true) :
    executeStatementSafely M σ s =
      (let p := safeExec M σ s
       match createTableName s, p.2.success with
       | some n, true => (p.1, { p.2 with tableCreated := some n })
       | _, _ => p) := by
  simp only [noSkipB, Bool.and_eq_true, Bool.not_eq_true'] at h
  simp only [executeStatementSafely]
  rw [if_neg (by simp [h.1.1]), if_neg (by simp [h.1.2]), if_neg (by simp [h.2])]

theorem execOne_good_fields {S : Type} (M : StoreModel S) (st : IState S) {s : Str}
    {σ' : S} {n : Nat} (h1 : noSkipB s = true) (h2 : M.exec st.store s = .ok (σ', n)) :
    (execOne M st s).errors = st.errors ∧ (execOne M st s).executed = st.executed + 1 ∧
    (execOne M st s).store = σ' := by
  have he : safeExec M st.store s =
      (σ', { success := true, rowsAffected := some n, query := some (trunc100 s) }) := by
    simp [safeExec, h2]
  cases hct : createTableName s with
  | none => simp [execOne, executeStatementSafely_no_skip M st.store h1, he, hct]
  | some m => simp [execOne, executeStatementSafely_no_skip M st.store h1, he, hct]

theorem execOne_bad_fields {S : Type} (M : StoreModel S) (st : IState S) {s : Str}
    {e : Str} (h1 : noSkipB s = true) (h2 : M.exec st.store s = .error e) :
    (execOne M st s).errors = st.errors ++ [safeExecErr s e] ∧
    (execOne M st s).executed = st.executed + 1 ∧
    (execOne M st s).store = st.store := by
  have he : safeExec M st.store s =
      (st.store, { success := false, error := some (safeExecErr s e), query := some s }) := by
    simp [safeExec, h2]
  cases hct : createTableName s with
  | none => simp [execOne, executeStatementSafely_no_skip M st.store h1, he, hct]
  | some m => simp [execOne, executeStatementSafely_no_skip M st.store h1, he, hct]

theorem execList_good_fields {S : Type} (M : StoreModel S) (ss : List Str) :
    ∀ st : IState S, (∀ s ∈ ss, noSkipB s = true) → (∀ s ∈ ss, IsOkStmt M s) →
    (execList M st ss).errors = st.errors ∧
    (execList M st ss).executed = st.executed + ss.length ∧
    (execList M st ss).store = execGood M st.store ss := by
  induction ss with
  | nil => intro st _ _; exact ⟨rfl, rfl, rfl⟩
  | cons s rest ih =>
    intro st hskip hok
    obtain ⟨σ', n, hex⟩ := hok s (List.mem_cons_self s rest) st.store
    have h1 := execOne_good_fields M st (hskip s (List.mem_cons_self s rest)) hex
    have step : execList M st (s :: rest) = execList M (execOne M st s) rest := rfl
    have ihr := ih (execOne M st s) (fun t ht => hskip t (List.mem_cons_of_mem s ht))
      (fun t ht => hok t (List.mem_cons_of_mem s ht))
    rw [step]
    refine ⟨by rw [ihr.1, h1.1], by rw [ihr.2.1, h1.2.1, List.length_cons]; omega, ?_⟩
    rw [ihr.2.2, h1.2.2]
    show execGood M σ' rest = _
    have : execGood M st.store (s :: rest) = execGood M σ' rest := by
      simp [execGood, hex]
    rw [this]

/-- Executing a statement never touches the text buffer. -/
theorem execOne_buffer {S : Type} (M : StoreModel S) (st : IState S) (s : Str) :
    (execOne M st s).buffer = st.buffer := by
  unfold execOne
  generalize executeStatementSafely M st.store s = p
  obtain ⟨σ', r⟩ := p
  obtain ⟨su, er, wa, tc, ra, qu⟩ := r
  cases er <;> cases wa <;> cases tc <;> cases ra <;> rfl

/-- Executing a statement list never touches the text buffer. -/
theorem execList_buffer {S : Type} (M : StoreModel S) (ss : List Str) (st : IState S) :
    (execList M st ss).buffer = st.buffer := by
  induction ss generalizing st with
  | nil => rfl
  | cons s rest ih =>
    show (execList M (execOne M st s) rest).buffer = st.buffer
    rw [ih, execOne_buffer]

/-! ### Claim C9: partial-failure tolerance -/

/-- **C9.** An import stream of ten parsed statements, none matching a
skip condition, of which exactly one (at any position) fails while the
other nine succeed, yields exactly one recorded error, ten attempted
executions (hence nine successful ones), `success = false`, and a final
store equal to the nine valid statements' mutations applied in order —
the failed statement neither aborts the import nor touches the store. -/
theorem C9_partial_failure {S : Type} (M : StoreModel S) (σ0 : S) (B : Str)
    (a b : List Str) (bad : Str)
    (hparse : parse B = a ++ bad :: b) (hlen : a.length + b.length = 9)
    (hskip : ∀ s ∈ a ++ bad :: b, noSkipB s = true)
    (hga : ∀ s ∈ a, IsOkStmt M s) (hgb : ∀ s ∈ b, IsOkStmt M s)
    (hbad : IsErrStmt M bad) :
    (runFromFile M σ0 [B]).1.errors.length = 1 ∧
    (runFromFile M σ0 [B]).1.executedStatements = 10 ∧
    (runFromFile M σ0 [B]).1.executedStatements -
      (runFromFile M σ0 [B]).1.errors.length = 9 ∧
    (runFromFile M σ0 [B]).1.success = false ∧
    (runFromFile M σ0 [B]).2 = execGood M (execGood M σ0 a) b := by
  have hB : hasSemi B = true := by
    by_contra hB
    have := parse_eq_nil_of_no_semi (l := B) (by simpa using hB)
    rw [hparse] at this
    exact absurd this (by simp)
  have hfold : [B].foldl (chunkStep M) (initIState σ0) = chunkStep M (initIState σ0) B := rfl
  have hchunk : chunkStep M (initIState σ0) B =
      execList M { initIState σ0 with buffer := afterLastSemi B } (parse B) := by
    unfold chunkStep
    simp only [initIState, List.nil_append, hB, if_true]
  set st0 : IState S := { initIState σ0 with buffer := afterLastSemi B } with hst0
  have hskipa : ∀ s ∈ a, noSkipB s = true :=
    fun s hs => hskip s (List.mem_append.mpr (Or.inl hs))
  have hskipb : ∀ s ∈ b, noSkipB s = true :=
    fun s hs => hskip s (List.mem_append.mpr (Or.inr (List.mem_cons_of_mem bad hs)))
  have hskipbad : noSkipB bad = true :=
    hskip bad (List.mem_append.mpr (Or.inr (List.mem_cons_self bad b)))
  have hsplit : execList M st0 (a ++ bad :: b) =
      execList M (execOne M (execList M st0 a) bad) b := by
    unfold execList
    rw [List.foldl_append]
    rfl
  have ha := execList_good_fields M a st0 hskipa hga
  obtain ⟨e, hex⟩ := hbad (execList M st0 a).store
  have hb1 := execOne_bad_fields M (execList M st0 a) hskipbad hex
  have hb := execList_good_fields M b (execOne M (execList M st0 a) bad) hskipb hgb
  have herr : (execList M st0 (a ++ bad :: b)).errors = [safeExecErr bad e] := by
    rw [hsplit, hb.1, hb1.1, ha.1]
    rfl
  have hexec : (execList M st0 (a ++ bad :: b)).executed = 10 := by
    rw [hsplit, hb.2.1, hb1.2.1, ha.2.1]
    show st0.executed + a.length + 1 + b.length = 10
    have : st0.executed = 0 := rfl
    omega
  have hstore : (execList M st0 (a ++ bad :: b)).store = execGood M (execGood M σ0 a) b := by
    rw [hsplit, hb.2.2, hb1.2.2, ha.2.2]
    rfl
  have hbufSemi : hasSemi (execList M st0 (a ++ bad :: b)).buffer = false := by
    rw [execList_buffer]
    exact hasSemi_afterLastSemi B
  have hfin : finishStep M (execList M st0 (a ++ bad :: b)) =
      execList M st0 (a ++ bad :: b) :=
    finishStep_of_parse_nil M (parse_eq_nil_of_no_semi hbufSemi)
  have hrun : runFromFile M σ0 [B] =
      (mkResult (execList M st0 (a ++ bad :: b)),
       (execList M st0 (a ++ bad :: b)).store) := by
    unfold runFromFile
    rw [hfold, hchunk, hparse, hfin]
  rw [hrun]
  refine ⟨by simp [mkResult, herr], by simp [mkResult, hexec], ?_, ?_, hstore⟩
  · simp [mkResult, herr, hexec]
  · simp [mkResult, herr]

/-- A concrete store for the C9 witness: a counter of applied
statements; statements beginning `INSERT` succeed, others throw. -/
def insertOnlyStore : StoreModel Nat :=
  ⟨fun σ s => if startsWithJS "INSERT".data s then .ok (σ + 1, 1)
              else .error "near \"BROKEN\": syntax error".data⟩

/-- The ten-statement witness stream: nine INSERTs and one bad
statement in fifth position. -/
def c9Stream : Str :=
  ("INSERT INTO t VALUES (1);\nINSERT INTO t VALUES (2);\n" ++
   "INSERT INTO t VALUES (3);\nINSERT INTO t VALUES (4);\n" ++
   "BROKEN STATEMENT;\n" ++
   "INSERT INTO t VALUES (5);\nINSERT INTO t VALUES (6);\n" ++
   "INSERT INTO t VALUES (7);\nINSERT INTO t VALUES (8);\n" ++
   "INSERT INTO t VALUES (9);\n").data

/-- The nine valid statements of the witness stream, before/after the
bad one. -/
def c9Before : List Str :=
  ["INSERT INTO t VALUES (1);".data, "INSERT INTO t VALUES (2);".data,
   "INSERT INTO t VALUES (3);".data, "INSERT INTO t VALUES (4);".data]

def c9After : List Str :=
  ["INSERT INTO t VALUES (5);".data, "INSERT INTO t VALUES (6);".data,
   "INSERT INTO t VALUES (7);".data, "INSERT INTO t VALUES (8);".data,
   "INSERT INTO t VALUES (9);".data]

theorem insertOnlyStore_ok {s : Str} (h : startsWithJS "INSERT".data s = true) :
    IsOkStmt insertOnlyStore s := by
  intro σ
  exact ⟨σ + 1, 1, by simp [insertOnlyStore, h]⟩

set_option maxRecDepth 40000

/-- Witness for C9 at the concrete stream and store. -/
theorem C9_partial_failure_witness :
    (runFromFile insertOnlyStore 0 [c9Stream]).1.errors.length = 1 ∧
    (runFromFile insertOnlyStore 0 [c9Stream]).1.executedStatements = 10 ∧
    (runFromFile insertOnlyStore 0 [c9Stream]).1.executedStatements -
      (runFromFile insertOnlyStore 0 [c9Stream]).1.errors.length = 9 ∧
    (runFromFile insertOnlyStore 0 [c9Stream]).1.success = false ∧
    (runFromFile insertOnlyStore 0 [c9Stream]).2 =
      execGood insertOnlyStore (execGood insertOnlyStore 0 c9Before) c9After := by
  refine C9_partial_failure insertOnlyStore 0 c9Stream c9Before c9After
    "BROKEN STATEMENT;".data (by decide) (by decide) (by decide) ?_ ?_ ?_
  · intro s hs
    fin_cases hs <;> exact insertOnlyStore_ok (by decide)
  · intro s hs
    fin_cases hs <;> exact insertOnlyStore_ok (by decide)
  · intro σ
    refine ⟨"near \"BROKEN\": syntax error".data, ?_⟩
    have h : startsWithJS "INSERT".data "BROKEN STATEMENT;".data = false := by decide
    simp [insertOnlyStore, h]

/-! ### Claim C7: statement classification during import -/

/-- **C7 counterexample.** The statement
`INSERT INTO logs (msg) VALUES ('_cf_data');` is neither a control-verb
statement nor a `DROP TABLE`, and its target table `logs` does not bear
the `_cf_` prefix; the claim therefore places it with "every other
statement is executed", yet `executeStatementSafely` skips it with a
warning and never touches the store, because the `/_cf_/i` test matches
anywhere in the statement text. -/
theorem C7_counterexample :
    isCtrlStmt (jsTrim "INSERT INTO logs (msg) VALUES ('_cf_data');".data) = false ∧
    isDropTableStmt (jsTrim "INSERT INTO logs (msg) VALUES ('_cf_data');".data) = false ∧
    (executeStatementSafely logStore []
      "INSERT INTO logs (msg) VALUES ('_cf_data');".data).1 = [] ∧
    (executeStatementSafely logStore []
      "INSERT INTO logs (msg) VALUES ('_cf_data');".data).2.warning.isSome = true ∧
    (executeStatementSafely logStore []
      "INSERT INTO logs (msg) VALUES ('_cf_data');".data).2.error = none := by
  decide

/-- **C7 amended.** The classification of `executeStatementSafely`, in
the source's test order: statements whose trimmed text begins with
BEGIN/COMMIT/ROLLBACK/PRAGMA (case-insensitive) are skipped as
warnings; then `DROP TABLE` statements are skipped as warnings; then
any statement containing the character sequence `_cf_` anywhere
(case-insensitive), not merely statements whose target is
`_cf_`-prefixed, is skipped as a warning; every remaining statement is
executed against the store, recording a created-table name on success
and the thrown message as an error on failure. -/
theorem C7_amended {S : Type} (M : StoreModel S) (σ : S) (s : Str) :
    (isCtrlStmt (jsTrim s) = true →
      executeStatementSafely M σ s =
        (σ, { success := true,
              warning := some ("Skipped unsupported statement: ".data ++
                (jsTrim s).take 50 ++ "...".data) })) ∧
    (isCtrlStmt (jsTrim s) = false → isDropTableStmt (jsTrim s) = true →
      executeStatementSafely M σ s =
        (σ, { success := true,
              warning := some ("Skipped DROP TABLE statement: ".data ++
                (jsTrim s).take 50 ++ "...".data) })) ∧
    (isCtrlStmt (jsTrim s) = false → isDropTableStmt (jsTrim s) = false →
      containsCfCI (jsTrim s) = true →
      executeStatementSafely M σ s =
        (σ, { success := true,
              warning := some ("Skipped _cf_ table operation: ".data ++
                (jsTrim s).take 50 ++ "...".data) })) ∧
    (isCtrlStmt (jsTrim s) = false → isDropTableStmt (jsTrim s) = false →
      containsCfCI (jsTrim s) = false →
      executeStatementSafely M σ s =
        match M.exec σ s with
        | .ok (σ', n) =>
          (σ', { success := true, rowsAffected := some n,
                 query := some (trunc100 s), tableCreated := createTableName s })
        | .error e =>
          (σ, { success := false, error := some (safeExecErr s e),
                query := some s })) := by
  refine ⟨?_, ?_, ?_, ?_⟩
  · intro h1
    simp [executeStatementSafely, h1]
  · intro h1 h2
    simp [executeStatementSafely, h1, h2]
  · intro h1 h2 h3
    simp [executeStatementSafely, h1, h2, h3]
  · intro h1 h2 h3
    have hns : noSkipB s = true := by simp [noSkipB, h1, h2, h3]
    rw [executeStatementSafely_no_skip M σ hns]
    cases hex : M.exec σ s with
    | ok p =>
      have he : safeExec M σ s =
          (p.1, { success := true, rowsAffected := some p.2,
                  query := some (trunc100 s) }) := by
        simp [safeExec, hex]
      cases hct : createTableName s <;> simp [he, hct]
    | error e =>
      have he : safeExec M σ s =
          (σ, { success := false, error := some (safeExecErr s e),
                query := some s }) := by
        simp [safeExec, hex]
      cases hct : createTableName s <;> simp [he, hct]

/-- Witness for C7 (control-verb branch at a concrete statement). -/
theorem C7_amended_witness :
    executeStatementSafely logStore [] "BEGIN TRANSACTION;".data =
      ([], { success := true,
             warning := some ("Skipped unsupported statement: ".data ++
               (jsTrim "BEGIN TRANSACTION;".data).take 50 ++ "...".data) }) :=
  (C7_amended logStore [] "BEGIN TRANSACTION;".data).1 (by decide)

/-! ### Claims C5 and C2: counterexamples -/

/-- **C5 counterexample.** A stream consisting of the single statement
`INSERT INTO t VALUES (1)` with no terminating semicolon: at stream end
the claim says the remainder is executed best-effort, but `runFromFile`
re-parses it with the terminator-requiring splitter, so nothing is
executed at all — zero executed statements, an untouched store, and a
vacuously successful result. -/
theorem C5_counterexample :
    runFromFile logStore [] ["INSERT INTO t VALUES (1)".data] =
      ({ success := true, executedStatements := 0, errors := [], warnings := [],
         tablesCreated := [], rowsInserted := 0 }, []) := by
  decide

/-- **C2 counterexample.** The body `INSERT INTO t (c) VALUES\n('a;b');\n`
(a semicolon inside a string literal) fed as one chunk executes one
statement, but split after the embedded semicolon it executes two
garbled fragments: the Import Result differs, refuting chunk-boundary
independence for arbitrary byte sequences. -/
theorem C2_counterexample :
    runFromFile logStore [] ["INSERT INTO t (c) VALUES\n('a;".data, "b');\n".data] ≠
      runFromFile logStore [] ["INSERT INTO t (c) VALUES\n('a;b');\n".data] ∧
    (runFromFile logStore []
      ["INSERT INTO t (c) VALUES\n('a;".data, "b');\n".data]).1.executedStatements = 2 ∧
    (runFromFile logStore []
      ["INSERT INTO t (c) VALUES\n('a;b');\n".data]).1.executedStatements = 1 := by
  decide

/-! ## Export engine (`getExport`, source lines 380-583)

The store side of the export is modelled by `ExportStore`: the catalog
rows behind `getTableList` (with a flag for the query failing), and per
table the data behind `getTableSchema` (`none` models retrieval
failure), the catalog's index definitions (present in `sqlite_master`;
whether the exporter reads them is exactly what claim C6 asks), the
result of `getTableColumns` (the empty list models its failure path),
the table rows in column order, and a flag plus message for a data
`SELECT` that throws (modelled at the first page fetch).  Rows are held
as value lists aligned with `columns`, matching the source's
`columns.map(col => row[col])`. -/

/-- A typed SQLite scalar as `escapeSQLValue` distinguishes them.
JS numbers are modelled by integers (the claims do not involve float
formatting); blob bytes are naturals below 256. -/
inductive SQLValue where
  | nullv
  | intv (i : Int)
  | textv (s : Str)
  | boolv (b : Bool)
  | blobv (bytes : List Nat)
deriving DecidableEq

/-- `value.replace(/'/g, "''")`. -/
def doubleQuotes : Str → Str
  | [] => []
  | c :: rest =>
    if c = '\'' then '\'' :: '\'' :: doubleQuotes rest else c :: doubleQuotes rest

/-- `Transfer.escapeSQLValue` (source lines 346-378). -/
def escapeSQLValue : SQLValue → Str
  | .nullv => "NULL".data
  | .intv i => intToStr i
  | .textv s => '\'' :: (doubleQuotes s ++ ['\''])
  | .boolv b => if b then "1".data else "0".data
  | .blobv bs => "X'".data ++ (bs.map hexByte).flatten ++ "'".data

/-- The `(v1, v2, ...)` tuple literal built for one row. -/
def rowTuple (row : List SQLValue) : Str :=
  '(' :: (List.intercalate ", ".data (row.map escapeSQLValue) ++ [')'])

/-- Total byte size of the accumulated tuple literals of a batch
(`currentStatementSize`). -/
def tupleSizes (b : List Str) : Nat := (b.map byteSize).sum

/-- One step of the batching loop (source lines 497-529): flush the
accumulated tuples when adding the next one would push the accumulated
tuple bytes over `MAX_STATEMENT_SIZE = 100 * 1024`. -/
def greedyStep (st : List Str × Nat × List (List Str)) (t : Str) :
    List Str × Nat × List (List Str) :=
  let ts := byteSize t
  if st.1 ≠ [] ∧ 102400 < st.2.1 + ts then ([t], ts, st.2.2 ++ [st.1])
  else (st.1 ++ [t], st.2.1 + ts, st.2.2)

/-- The batches of one page of rows, the trailing partial batch flushed
(source lines 531-537). -/
def greedyBatches (ts : List Str) : List (List Str) :=
  let r := ts.foldl greedyStep ([], 0, [])
  if r.1 ≠ [] then r.2.2 ++ [r.1] else r.2.2

/-- The paged cursor (`LIMIT 10000 OFFSET k`): batch each page
independently (the accumulation state is local to the `while`
iteration) and stop after a short page.  Structural fuel, always
sufficient at `rows.length + 1`. -/
def pagedBatchesAux : Nat → List (List SQLValue) → List (List Str)
  | 0, _ => []
  | fuel + 1, rows =>
    let page := rows.take 10000
    let batches := greedyBatches (page.map rowTuple)
    if page.length < 10000 then batches
    else batches ++ pagedBatchesAux fuel (rows.drop 10000)

/-- All INSERT batches emitted for a table's rows. -/
def pagedBatches (rows : List (List SQLValue)) : List (List Str) :=
  pagedBatchesAux (rows.length + 1) rows

/-- The text of one batched INSERT statement (source lines 514-517). -/
def insertStmt (name : Str) (cols : List Str) (batch : List Str) : Str :=
  "INSERT OR IGNORE INTO ".data ++ name ++ " (".data ++
  List.intercalate ", ".data cols ++ ") VALUES\n".data ++
  List.intercalate ",\n".data batch ++ ";\n".data

/-- First character is JS whitespace (`\s` matches there). -/
def headIsWs : Str → Bool
  | [] => false
  | c :: _ => jsWs c

/-- `schemaSQL.replace(/CREATE TABLE\s+/i, "CREATE TABLE IF NOT EXISTS ")`:
replace the first case-insensitive occurrence of the literal
`CREATE TABLE` followed by at least one whitespace (consumed greedily). -/
def replaceCreateTable : Str → Str
  | [] => []
  | c :: rest =>
    if startsWithCI "CREATE TABLE".data (c :: rest) && headIsWs ((c :: rest).drop 12) then
      "CREATE TABLE IF NOT EXISTS ".data ++ ((c :: rest).drop 12).dropWhile jsWs
    else c :: replaceCreateTable rest

/-- One catalog table as the export queries see it. -/
structure TableData where
  name : Str
  schemaSQL : Option Str
  indexDefs : List Str
  columns : List Str
  rows : List (List SQLValue)
  dataOk : Bool
  dataErrMsg : Str
deriving DecidableEq

/-- The store's catalog, plus whether the table-list query succeeds. -/
structure ExportStore where
  catalogOk : Bool
  tables : List TableData
deriving DecidableEq

/-- SQLite `LIKE 'sqlite_%'` (case-insensitive, `_` a one-char wildcard). -/
def likeSqlitePat (n : Str) : Bool :=
  7 ≤ n.length && (lowerStr (n.take 6) == "sqlite".data)

/-- SQLite `LIKE '_cf_%'` (first char arbitrary, then `cf`, then one
arbitrary char, then anything). -/
def likeCfPat (n : Str) : Bool :=
  4 ≤ n.length && (lowerStr ((n.drop 1).take 2) == "cf".data)

/-- `Transfer.getTableList` (source lines 258-267): on catalog-query
failure the list is empty (the failure is logged and swallowed). -/
def getTableList (st : ExportStore) : List Str :=
  if st.catalogOk then
    (st.tables.map (·.name)).filter (fun n => !likeSqlitePat n && !likeCfPat n)
  else []

/-- Look a table up by name, as the per-table schema/data queries do. -/
def findTable (st : ExportStore) (n : Str) : Option TableData :=
  st.tables.find? (fun t => t.name == n)

/-- The `ExportConfig` of the source, with its destructuring defaults. -/
structure ExportConfig where
  includeSchema : Bool := true
  includeData : Bool := true
  tableWhitelist : List Str := []
  tableBlacklist : List Str := []
deriving DecidableEq

/-- The whitelist/blacklist filter (source lines 429-437). -/
def filterTables (cfg : ExportConfig) (all : List Str) : List Str :=
  all.filter (fun n =>
    if cfg.tableWhitelist ≠ [] then cfg.tableWhitelist.contains n
    else if cfg.tableBlacklist ≠ [] then !cfg.tableBlacklist.contains n
    else true)

/-- Text chunks and warnings of the schema section for one table
(source lines 443-462). -/
def schemaSection (st : ExportStore) (n : Str) : List Str × List Str :=
  let head := "\n-- Table structure for ".data ++ n ++ "\n".data
  match (findTable st n).bind (·.schemaSQL) with
  | some sql => ([head, replaceCreateTable sql ++ ";\n\n".data], [])
  | none =>
    ([head, "-- Warning: Could not export schema for ".data ++ n ++ "\n\n".data],
     ["Could not export schema for table: ".data ++ n])

/-- Text chunks, warnings and exported-row count of the data section
for one table (source lines 466-562). -/
def dataSection (st : ExportStore) (n : Str) : List Str × List Str × Nat :=
  let head := "\n-- Data for table ".data ++ n ++ "\n".data
  match findTable st n with
  | none =>
    ([head], ["Could not export data for table: ".data ++ n ++ " - no columns found".data], 0)
  | some t =>
    if t.columns.isEmpty then
      ([head], ["Could not export data for table: ".data ++ n ++ " - no columns found".data], 0)
    else if !t.dataOk then
      ([head, "-- Error exporting data from ".data ++ n ++ ": ".data ++
          t.dataErrMsg ++ "\n\n".data],
       ["Failed to export data from ".data ++ n ++ ": ".data ++ t.dataErrMsg], 0)
    else
      let stmts := (pagedBatches t.rows).map (insertStmt n t.columns)
      let rc := t.rows.length
      (head :: stmts ++
        (if 0 < rc then
          ["-- ".data ++ natToStr rc ++ " rows exported from ".data ++ n ++ "\n\n".data]
         else []),
       [], rc)

/-- Schema sections of all selected tables, in order. -/
def schemaPart (st : ExportStore) (tables : List Str) : List Str × List Str :=
  tables.foldl (fun acc n =>
    let r := schemaSection st n
    (acc.1 ++ r.1, acc.2 ++ r.2)) ([], [])

/-- Data sections of all selected tables, in order. -/
def dataPart (st : ExportStore) (tables : List Str) : List Str × List Str × Nat :=
  tables.foldl (fun acc n =>
    let r := dataSection st n
    (acc.1 ++ r.1, acc.2.1 ++ r.2.1, acc.2.2 + r.2.2)) ([], [], 0)

/-- `writeHeader` (source lines 403-407): the generation timestamp is
embedded in the measured body. -/
def headerChunk (ts : Str) : Str :=
  "-- Database Export\n-- Generated: ".data ++ ts ++ "\n\n".data

/-- First footer chunk (source lines 409-412). -/
def footerMain (numTables totalRows : Nat) : Str :=
  "\n-- Export completed\n-- Tables: ".data ++ natToStr numTables ++
  "\n-- Total rows: ".data ++ natToStr totalRows ++ "\n".data

/-- Warning block of the footer (source lines 413-417). -/
def footerWarnings (ws : List Str) : Str :=
  "-- Warnings:\n".data ++
  List.intercalate "\n".data (ws.map (fun w => "-- ".data ++ w)) ++ "\n".data

/-- Everything `getExport` emits after the header, together with the
selected tables, total rows and warnings; independent of the timestamp. -/
def exportCore (st : ExportStore) (cfg : ExportConfig) :
    List Str × List Str × Nat × List Str :=
  let allTables := getTableList st
  let w0 : List Str :=
    if allTables.isEmpty then ["No tables found or could not access table list".data] else []
  let tables := filterTables cfg allTables
  let sp := if cfg.includeSchema then schemaPart st tables else ([], [])
  let dp := if cfg.includeData then dataPart st tables else ([], [], 0)
  let warnings := w0 ++ sp.2 ++ dp.2.1
  (sp.1 ++ dp.1 ++ [footerMain tables.length dp.2.2] ++
     (if warnings.isEmpty then [] else [footerWarnings warnings]),
   tables, dp.2.2, warnings)

/-- The outcome of one `getExport` invocation: the emitted chunk
sequence and the response metadata. -/
structure ExportOut where
  chunks : List Str
  exportedTables : List Str
  totalRows : Nat
  warnings : List Str
deriving DecidableEq

/-- `Transfer.getExport` at a given generation timestamp. -/
def getExport (st : ExportStore) (cfg : ExportConfig) (ts : Str) : ExportOut :=
  let core := exportCore st cfg
  ⟨headerChunk ts :: core.1, core.2.1, core.2.2.1, core.2.2.2⟩

/-- The concatenated export body. -/
def exportConcat (st : ExportStore) (cfg : ExportConfig) (ts : Str) : Str :=
  (getExport st cfg ts).chunks.flatten

/-- The total byte count of the export stream: what pass 1 of `dump`
measures (`exactSize`), and what pass 2 writes. -/
def exportSize (st : ExportStore) (cfg : ExportConfig) (ts : Str) : Nat :=
  ((getExport st cfg ts).chunks.map byteSize).sum

/-! ### Claim C1: two-pass determinism and the sizing contract -/

theorem byteSize_append (a b : Str) : byteSize (a ++ b) = byteSize a + byteSize b := by
  simp [byteSize]

/-- A small concrete store for export counterexamples/witnesses. -/
def c1Store : ExportStore :=
  ⟨true, [⟨"users".data, some "CREATE TABLE users (id INTEGER)".data, [],
          ["id".data], [[.intv 1]], true, []⟩]⟩

/-- Two consecutive millisecond timestamps, as `Date.toISOString`
renders them (fixed 24-byte width). -/
def tsA : Str := "2025-06-24T12:00:00.000Z".data

def tsB : Str := "2025-06-24T12:00:00.001Z".data

/-- **C1 counterexample.** `writeHeader` embeds the invocation's
wall-clock timestamp in the measured body, so two invocations whose
clock samples differ — here by one millisecond — produce different byte
sequences: the outputs are not byte-identical, even though (the
timestamps having equal width) their lengths agree. -/
theorem C1_counterexample :
    exportConcat c1Store {} tsA ≠ exportConcat c1Store {} tsB ∧
    byteSize tsA = byteSize tsB ∧
    exportSize c1Store {} tsA = exportSize c1Store {} tsB := by
  decide

/-- **C1 amended.** For a fixed configuration and store, everything
after the header is timestamp-independent, so two export generations
whose sampled timestamps have equal byte length — ISO-8601 UTC
millisecond timestamps always do — produce output of identical total
byte length: the size `dump` declares from pass 1 equals the bytes
pass 2 writes.  The byte sequences themselves coincide only when the
two clock samples coincide. -/
theorem C1_amended (st : ExportStore) (cfg : ExportConfig) (ts1 ts2 : Str)
    (h : byteSize ts1 = byteSize ts2) :
    exportSize st cfg ts1 = exportSize st cfg ts2 ∧
    (ts1 = ts2 → getExport st cfg ts1 = getExport st cfg ts2) := by
  constructor
  · have h1 : (getExport st cfg ts1).chunks = headerChunk ts1 :: (exportCore st cfg).1 := rfl
    have h2 : (getExport st cfg ts2).chunks = headerChunk ts2 :: (exportCore st cfg).1 := rfl
    unfold exportSize
    rw [h1, h2]
    simp only [List.map_cons, List.sum_cons]
    have hh : byteSize (headerChunk ts1) = byteSize (headerChunk ts2) := by
      unfold headerChunk
      rw [byteSize_append, byteSize_append, byteSize_append, byteSize_append, h]
    rw [hh]
  · intro he
    rw [he]

/-- Witness for C1 amended at the concrete store and two distinct
equal-width timestamps. -/
theorem C1_amended_witness :
    byteSize tsA = byteSize tsB ∧ exportSize c1Store {} tsA = exportSize c1Store {} tsB :=
  ⟨by decide, (C1_amended c1Store {} tsA tsB (by decide)).1⟩

/-! ### Claim C3: catalog enumeration failure -/

/-- A store whose catalog query fails although tables exist. -/
def c3Store : ExportStore :=
  ⟨false, [⟨"users".data, some "CREATE TABLE users (id INTEGER)".data, [],
           ["id".data], [[.intv 1]], true, []⟩]⟩

/-- **C3 counterexample.** With the table-list query failing,
`getTableList` swallows the failure and returns the empty list, so
`getExport` runs to normal completion — header, completion footer and a
warning block — instead of signalling a terminal failure of the stream:
the claimed abort does not happen. -/
theorem C3_counterexample :
    (getExport c3Store {} tsA).chunks =
      [headerChunk tsA, footerMain 0 0,
       footerWarnings ["No tables found or could not access table list".data]] ∧
    containsSub "-- Export completed".data (exportConcat c3Store {} tsA) = true ∧
    c3Store.tables ≠ [] := by
  decide

/-- **C3 amended.** If the catalog enumeration fails, `getTableList`
falls back to the empty table list and `getExport` completes normally:
it emits exactly the header, the zero-table footer and a warning block
recording `No tables found or could not access table list`, exporting
no tables — there is no terminal failure of the sequence. -/
theorem C3_amended (cfg : ExportConfig) (ts : Str) (st : ExportStore)
    (h : st.catalogOk = false) :
    (getExport st cfg ts).chunks =
      [headerChunk ts, footerMain 0 0,
       footerWarnings ["No tables found or could not access table list".data]] ∧
    (getExport st cfg ts).warnings =
      ["No tables found or could not access table list".data] ∧
    (getExport st cfg ts).exportedTables = [] := by
  have hlist : getTableList st = [] := by simp [getTableList, h]
  have hcore : exportCore st cfg =
      ([footerMain 0 0,
        footerWarnings ["No tables found or could not access table list".data]],
       [], 0, ["No tables found or could not access table list".data]) := by
    unfold exportCore
    rw [hlist]
    cases cfg.includeSchema <;> cases cfg.includeData <;> rfl
  refine ⟨?_, ?_, ?_⟩ <;> simp [getExport, hcore]

/-- Witness for C3 amended at the concrete failing-catalog store. -/
theorem C3_amended_witness :
    (getExport c3Store {} tsA).chunks =
      [headerChunk tsA, footerMain 0 0,
       footerWarnings ["No tables found or could not access table list".data]] :=
  (C3_amended {} tsA c3Store rfl).1

/-! ### Claim C6: schema export and index statements -/

/-- A store with one table carrying an index definition in its catalog. -/
def c6Store : ExportStore :=
  ⟨true, [⟨"users".data, some "CREATE TABLE users (id INTEGER)".data,
          ["CREATE INDEX idx_users ON users (id)".data],
          ["id".data], [[.intv 1]], true, []⟩]⟩

/-- **C6 counterexample.** The catalog holds an index definition for
`users`, the export emits the rewritten idempotent create-table
statement — but no index statement at all: `CREATE INDEX` appears
nowhere in the output, refuting "followed by the table's associated
index-definition statements". -/
theorem C6_counterexample :
    (findTable c6Store "users".data).map (·.indexDefs) =
      some ["CREATE INDEX idx_users ON users (id)".data] ∧
    containsSub "CREATE TABLE IF NOT EXISTS users".data (exportConcat c6Store {} tsA) = true ∧
    containsSub "CREATE INDEX".data (exportConcat c6Store {} tsA) = false := by
  decide

/-- Forget every index definition in the catalog. -/
def eraseIndexes (st : ExportStore) : ExportStore :=
  ⟨st.catalogOk, st.tables.map (fun t => { t with indexDefs := [] })⟩

theorem findTable_eraseIndexes (st : ExportStore) (n : Str) :
    findTable (eraseIndexes st) n =
      (findTable st n).map (fun t => { t with indexDefs := [] }) := by
  unfold findTable eraseIndexes
  rw [List.find?_map]
  rfl

theorem schemaSection_eraseIndexes (st : ExportStore) (n : Str) :
    schemaSection (eraseIndexes st) n = schemaSection st n := by
  unfold schemaSection
  rw [findTable_eraseIndexes]
  cases findTable st n with
  | none => rfl
  | some t => rfl

theorem dataSection_eraseIndexes (st : ExportStore) (n : Str) :
    dataSection (eraseIndexes st) n = dataSection st n := by
  unfold dataSection
  rw [findTable_eraseIndexes]
  cases findTable st n with
  | none => rfl
  | some t => rfl

theorem schemaPart_eraseIndexes (st : ExportStore) (ns : List Str) :
    schemaPart (eraseIndexes st) ns = schemaPart st ns := by
  unfold schemaPart
  congr 1
  funext acc n
  rw [schemaSection_eraseIndexes]

theorem dataPart_eraseIndexes (st : ExportStore) (ns : List Str) :
    dataPart (eraseIndexes st) ns = dataPart st ns := by
  unfold dataPart
  congr 1
  funext acc n
  rw [dataSection_eraseIndexes]

theorem getTableList_eraseIndexes (st : ExportStore) :
    getTableList (eraseIndexes st) = getTableList st := by
  unfold getTableList eraseIndexes
  rw [List.map_map]
  rfl

/-- `' ' :: rest` loses exactly its head to `\s+` when `rest` does not
begin with whitespace. -/
theorem dropWhile_ws_space (rest : Str) (h : headIsWs rest = false) :
    (' ' :: rest).dropWhile jsWs = rest := by
  cases rest with
  | nil => rfl
  | cons c cs =>
    have hc : jsWs c = false := h
    show (' ' :: c :: cs).dropWhile jsWs = c :: cs
    rw [List.dropWhile_cons, if_pos (show jsWs ' ' = true from rfl),
      List.dropWhile_cons, if_neg (by rw [hc]; exact Bool.false_ne_true)]

/-- The idempotent rewrite on a stored schema of the canonical
`CREATE TABLE <name>...` shape. -/
theorem replaceCreateTable_create (rest : Str) (h : headIsWs rest = false) :
    replaceCreateTable ("CREATE TABLE ".data ++ rest) =
      "CREATE TABLE IF NOT EXISTS ".data ++ rest := by
  show replaceCreateTable ('C' :: ("REATE TABLE ".data ++ rest)) = _
  rw [replaceCreateTable]
  rw [if_pos (show (startsWithCI "CREATE TABLE".data ('C' :: ("REATE TABLE ".data ++ rest)) &&
    headIsWs (('C' :: ("REATE TABLE ".data ++ rest)).drop 12)) = true from rfl)]
  show "CREATE TABLE IF NOT EXISTS ".data ++ (' ' :: rest).dropWhile jsWs = _
  rw [dropWhile_ws_space rest h]

/-- **C6 amended.** When `includeSchema` is enabled the export emits,
for each selected table with retrievable schema, the create-table
statement rewritten to the idempotent `CREATE TABLE IF NOT EXISTS` form
(never a DROP or overwrite) — but no index-definition statements: the
entire export output is independent of the catalog's index definitions. -/
theorem C6_amended :
    (∀ (st : ExportStore) (cfg : ExportConfig) (ts : Str),
      getExport (eraseIndexes st) cfg ts = getExport st cfg ts) ∧
    (∀ rest : Str, headIsWs rest = false →
      replaceCreateTable ("CREATE TABLE ".data ++ rest) =
        "CREATE TABLE IF NOT EXISTS ".data ++ rest) := by
  constructor
  · intro st cfg ts
    unfold getExport exportCore
    simp only [getTableList_eraseIndexes, schemaPart_eraseIndexes, dataPart_eraseIndexes]
  · exact replaceCreateTable_create

/-- Witness for C6 amended: the concrete indexed store's export equals
the same store's export with the index catalog erased, and the rewrite
at the concrete schema `CREATE TABLE users (id INTEGER)`. -/
theorem C6_amended_witness :
    getExport (eraseIndexes c6Store) {} tsA = getExport c6Store {} tsA ∧
    replaceCreateTable "CREATE TABLE users (id INTEGER)".data =
      "CREATE TABLE IF NOT EXISTS users (id INTEGER)".data := by
  constructor
  · exact C6_amended.1 c6Store {} tsA
  · have := C6_amended.2 "users (id INTEGER)".data (by decide)
    exact this

/-! ### Claim C4: the per-statement size ceiling -/

theorem byteSize_cons (c : Char) (l : Str) :
    byteSize (c :: l) = c.utf8Size + byteSize l := by
  simp [byteSize]

theorem doubleQuotes_replicate_a (n : Nat) :
    doubleQuotes (List.replicate n 'a') = List.replicate n 'a' := by
  induction n with
  | zero => rfl
  | succ k ih =>
    rw [List.replicate_succ]
    show doubleQuotes ('a' :: List.replicate k 'a') = _
    rw [doubleQuotes, if_neg (by decide), ih, ← List.replicate_succ]

theorem byteSize_replicate_a (n : Nat) : byteSize (List.replicate n 'a') = n := by
  induction n with
  | zero => rfl
  | succ k ih =>
    rw [List.replicate_succ, byteSize_cons, ih, show ('a').utf8Size = 1 from rfl]
    omega

/-- A single text value whose tuple literal alone exceeds the 100 KiB
statement ceiling. -/
def bigText : Str := List.replicate 102400 'a'

def c4Row : List SQLValue := [.textv bigText]

theorem byteSize_tuple_c4 : byteSize (rowTuple c4Row) = 102404 := by
  have hesc : escapeSQLValue (.textv bigText) = '\'' :: (bigText ++ ['\'']) := by
    rw [show escapeSQLValue (.textv bigText) =
        '\'' :: (doubleQuotes bigText ++ ['\'']) from rfl]
    unfold bigText
    rw [doubleQuotes_replicate_a]
  have hint : List.intercalate ", ".data [escapeSQLValue (.textv bigText)] =
      escapeSQLValue (.textv bigText) := by
    simp [List.intercalate]
  unfold rowTuple c4Row
  simp only [List.map_cons, List.map_nil]
  rw [hint, hesc, byteSize_cons, byteSize_append, byteSize_cons, byteSize_append]
  unfold bigText
  rw [byteSize_replicate_a]
  decide

theorem pagedBatches_single (r : List SQLValue) : pagedBatches [r] = [[rowTuple r]] := by
  unfold pagedBatches pagedBatchesAux
  simp [greedyBatches, greedyStep]

/-- **C4 counterexample.** A table with a single row whose tuple
literal is 102404 bytes: its data "would otherwise form a single INSERT
exceeding the ceiling", yet the export emits exactly one INSERT
statement, and that statement exceeds 100 KiB — nothing is split and
nothing is "individually under the ceiling". -/
theorem C4_counterexample :
    (pagedBatches [c4Row]).map (insertStmt "t".data ["c".data]) =
      [insertStmt "t".data ["c".data] [rowTuple c4Row]] ∧
    102400 < tupleSizes [rowTuple c4Row] ∧
    102400 < byteSize (insertStmt "t".data ["c".data] [rowTuple c4Row]) := by
  refine ⟨by rw [pagedBatches_single]; rfl, ?_, ?_⟩
  · have : tupleSizes [rowTuple c4Row] = 102404 := by
      simp [tupleSizes, byteSize_tuple_c4]
    omega
  · have h1 : byteSize (insertStmt "t".data ["c".data] [rowTuple c4Row]) =
        byteSize "INSERT OR IGNORE INTO ".data + byteSize "t".data +
        byteSize " (".data + byteSize (List.intercalate ", ".data ["c".data]) +
        byteSize ") VALUES\n".data +
        byteSize (List.intercalate ",\n".data [rowTuple c4Row]) +
        byteSize ";\n".data := by
      unfold insertStmt
      rw [byteSize_append, byteSize_append, byteSize_append, byteSize_append,
        byteSize_append, byteSize_append]
    have h2 : List.intercalate ",\n".data [rowTuple c4Row] = rowTuple c4Row := by
      simp [List.intercalate]
    rw [h1, h2, byteSize_tuple_c4]
    have h3 : byteSize (List.intercalate ", ".data ["c".data]) = 1 := by decide
    rw [h3]
    have h4 : byteSize "INSERT OR IGNORE INTO ".data = 22 := by decide
    have h5 : byteSize "t".data = 1 := by decide
    have h6 : byteSize " (".data = 2 := by decide
    have h7 : byteSize ") VALUES\n".data = 9 := by decide
    have h8 : byteSize ";\n".data = 2 := by decide
    omega

/-- The batch predicate of the amended claim: non-empty, and when it
holds at least two row tuples its accumulated tuple text is at most the
ceiling. -/
def goodBatch (b : List Str) : Bool :=
  !b.isEmpty && (b.length == 1 || decide (tupleSizes b ≤ 102400))

theorem tupleSizes_append_single (cur : List Str) (t : Str) :
    tupleSizes (cur ++ [t]) = tupleSizes cur + byteSize t := by
  simp [tupleSizes]

theorem greedy_fold_spec (ts : List Str) : ∀ (cur : List Str) (sz : Nat)
    (acc : List (List Str)), sz = tupleSizes cur →
    (cur = [] ∨ goodBatch cur = true) →
    (∀ b ∈ acc, goodBatch b = true) →
    (ts.foldl greedyStep (cur, sz, acc)).2.2.flatten ++
      (ts.foldl greedyStep (cur, sz, acc)).1 = acc.flatten ++ cur ++ ts ∧
    (ts.foldl greedyStep (cur, sz, acc)).2.1 =
      tupleSizes (ts.foldl greedyStep (cur, sz, acc)).1 ∧
    ((ts.foldl greedyStep (cur, sz, acc)).1 = [] ∨
      goodBatch (ts.foldl greedyStep (cur, sz, acc)).1 = true) ∧
    (∀ b ∈ (ts.foldl greedyStep (cur, sz, acc)).2.2, goodBatch b = true) := by
  induction ts with
  | nil =>
    intro cur sz acc hsz hcur hacc
    refine ⟨by simp, hsz ▸ rfl, hcur, hacc⟩
  | cons t rest ih =>
    intro cur sz acc hsz hcur hacc
    rw [List.foldl_cons]
    by_cases hc : cur ≠ [] ∧ 102400 < sz + byteSize t
    · have hstep : greedyStep (cur, sz, acc) t = ([t], byteSize t, acc ++ [cur]) := by
        simp [greedyStep, hc]
      rw [hstep]
      have hgoodcur : goodBatch cur = true := by
        rcases hcur with h | h
        · exact absurd h hc.1
        · exact h
      have hacc' : ∀ b ∈ acc ++ [cur], goodBatch b = true := by
        intro b hb
        rcases List.mem_append.mp hb with hb | hb
        · exact hacc b hb
        · rw [List.mem_singleton.mp hb]; exact hgoodcur
      have hr := ih [t] (byteSize t) (acc ++ [cur]) (by simp [tupleSizes])
        (Or.inr (by simp [goodBatch])) hacc'
      refine ⟨?_, hr.2.1, hr.2.2.1, hr.2.2.2⟩
      rw [hr.1, List.flatten_append]
      simp
    · have hstep : greedyStep (cur, sz, acc) t = (cur ++ [t], sz + byteSize t, acc) := by
        simp only [greedyStep]
        rw [if_neg hc]
      rw [hstep]
      have hsz' : sz + byteSize t = tupleSizes (cur ++ [t]) := by
        rw [tupleSizes_append_single, hsz]
      have hcur' : cur ++ [t] = [] ∨ goodBatch (cur ++ [t]) = true := by
        right
        rcases Classical.em (cur = []) with hnil | hne
        · subst hnil; simp [goodBatch]
        · have hle : sz + byteSize t ≤ 102400 := by
            by_contra hgt
            exact hc ⟨hne, by omega⟩
          have : tupleSizes (cur ++ [t]) ≤ 102400 := by
            rw [← hsz']; omega
          simp [goodBatch, this]
      have hr := ih (cur ++ [t]) (sz + byteSize t) acc hsz' hcur' hacc
      refine ⟨?_, hr.2.1, hr.2.2.1, hr.2.2.2⟩
      rw [hr.1]
      simp
  
theorem greedyBatches_spec (ts : List Str) :
    (greedyBatches ts).flatten = ts ∧ ∀ b ∈ greedyBatches ts, goodBatch b = true := by
  have h := greedy_fold_spec ts [] 0 [] rfl (Or.inl rfl) (by intro b hb; cases hb)
  unfold greedyBatches
  by_cases hr : (ts.foldl greedyStep ([], 0, [])).1 = []
  · rw [if_neg (by simp [hr])]
    constructor
    · have := h.1
      rw [hr] at this
      simpa using this
    · exact h.2.2.2
  · rw [if_pos hr]
    constructor
    · rw [List.flatten_append]
      have := h.1
      simp only [List.flatten_nil, List.nil_append] at this
      simpa using this
    · intro b hb
      rcases List.mem_append.mp hb with hb | hb
      · exact h.2.2.2 b hb
      · rw [List.mem_singleton.mp hb]
        rcases h.2.2.1 with h0 | h0
        · exact absurd h0 hr
        · exact h0

theorem pagedBatchesAux_spec : ∀ (fuel : Nat) (rows : List (List SQLValue)),
    rows.length ≤ fuel * 10000 →
    (pagedBatchesAux fuel rows).flatten = rows.map rowTuple ∧
    ∀ b ∈ pagedBatchesAux fuel rows, goodBatch b = true := by
  intro fuel
  induction fuel with
  | zero =>
    intro rows h
    have hz : rows = [] := List.eq_nil_of_length_eq_zero (by omega)
    subst hz
    exact ⟨rfl, by intro b hb; cases hb⟩
  | succ k ih =>
    intro rows h
    unfold pagedBatchesAux
    by_cases hp : (rows.take 10000).length < 10000
    · rw [if_pos hp]
      have htake : rows.take 10000 = rows := by
        rw [List.length_take] at hp
        exact List.take_of_length_le (by omega)
      rw [htake]
      exact greedyBatches_spec (rows.map rowTuple)
    · rw [if_neg hp]
      have hlen : rows.length ≥ 10000 := by
        rw [List.length_take] at hp
        omega
      have hrec := ih (rows.drop 10000) (by rw [List.length_drop]; omega)
      obtain ⟨g1, g2⟩ := greedyBatches_spec ((rows.take 10000).map rowTuple)
      constructor
      · rw [List.flatten_append, g1, hrec.1, ← List.map_append, List.take_append_drop]
      · intro b hb
        rcases List.mem_append.mp hb with hb | hb
        · exact g2 b hb
        · exact hrec.2 b hb

/-- **C4 amended.** The export batches each table's row tuples so that
the concatenation of all emitted statements' tuples equals the table's
full row sequence exactly once and in order, and every emitted batch is
non-empty with its accumulated tuple text (the quantity the source
measures — the INSERT prefix is not counted) at most the 100 KiB
ceiling whenever the batch holds two or more tuples; a single row whose
tuple alone exceeds the ceiling is emitted as one oversized statement
rather than split. -/
theorem C4_amended (rows : List (List SQLValue)) :
    (pagedBatches rows).flatten = rows.map rowTuple ∧
    ∀ b ∈ pagedBatches rows, goodBatch b = true :=
  pagedBatchesAux_spec (rows.length + 1) rows (by omega)

/-- Witness for C4 amended at the concrete oversized row. -/
theorem C4_amended_witness :
    (pagedBatches [c4Row]).flatten = [c4Row].map rowTuple ∧
    ∀ b ∈ pagedBatches [c4Row], goodBatch b = true :=
  C4_amended [c4Row]

/-! ## Chunk-boundary machinery for claims C2 and C5

The splitter/buffer interaction of `runFromFile` is chunk-invariant
only for inputs whose semicolons are line-final and outside comments;
the definitions below state that input class (`SafeSemis`) and develop
the compositionality of `parse` over chunk boundaries. -/

theorem hasSemi_append (a b : Str) : hasSemi (a ++ b) = (hasSemi a || hasSemi b) := by
  simp only [hasSemi, List.contains]
  induction a with
  | nil => rfl
  | cons x t ih =>
    show List.elem ';' (x :: (t ++ b)) = _
    rw [List.elem_cons, List.elem_cons]
    cases (';' == x) <;> simp [ih]

/-- JS `text.split("\n")`. -/
def splitLines (l : Str) : List Str :=
  l.foldr (fun c acc =>
    if c = '\n' then [] :: acc
    else match acc with
      | a :: as => (c :: a) :: as
      | [] => [[c]]) [[]]

theorem splitLines_nil : splitLines [] = [[]] := rfl

theorem splitLines_cons (c : Char) (rest : Str) :
    splitLines (c :: rest) =
      if c = '\n' then [] :: splitLines rest
      else match splitLines rest with
        | a :: as => (c :: a) :: as
        | [] => [[c]] := rfl

theorem splitLines_ne_nil (l : Str) : splitLines l ≠ [] := by
  cases l with
  | nil => simp [splitLines]
  | cons c rest =>
    rw [splitLines_cons]
    by_cases hc : c = '\n'
    · simp [hc]
    · rw [if_neg hc]
      cases splitLines rest <;> simp

theorem splitLines_no_newline {l : Str} (h : '\n' ∉ l) : splitLines l = [l] := by
  induction l with
  | nil => rfl
  | cons c rest ih =>
    have hc : c ≠ '\n' := fun hcc => h (hcc ▸ List.mem_cons_self c rest)
    have hr : '\n' ∉ rest := fun hm => h (List.mem_cons_of_mem _ hm)
    rw [splitLines_cons, if_neg hc, ih hr]

theorem splitLines_append_newline (x y : Str) :
    splitLines (x ++ '\n' :: y) = splitLines x ++ splitLines y := by
  induction x with
  | nil =>
    show splitLines ('\n' :: y) = splitLines [] ++ splitLines y
    rw [splitLines_cons, if_pos rfl, splitLines_nil]
    rfl
  | cons c rest ih =>
    show splitLines (c :: (rest ++ '\n' :: y)) = splitLines (c :: rest) ++ splitLines y
    rw [splitLines_cons, splitLines_cons]
    by_cases hc : c = '\n'
    · rw [if_pos hc, if_pos hc, ih]
      rfl
    · rw [if_neg hc, if_neg hc, ih]
      cases hr : splitLines rest with
      | nil => exact absurd hr (splitLines_ne_nil rest)
      | cons a as => rfl

theorem dropWhile_head_decomp {p : Char → Bool} {l : Str} (h : l.dropWhile p ≠ []) :
    ∃ c rest, l.dropWhile p = c :: rest ∧ p c = false := by
  induction l with
  | nil => exact absurd rfl h
  | cons a t ih =>
    by_cases hp : p a = true
    · rw [List.dropWhile_cons, if_pos hp] at h ⊢
      exact ih h
    · rw [List.dropWhile_cons, if_neg hp]
      exact ⟨a, t, rfl, by simpa using hp⟩

theorem dropWhile_all_nil {p : Char → Bool} {l : Str} (h : l.all p = true) :
    l.dropWhile p = [] := by
  rw [List.dropWhile_eq_nil_iff]
  intro x hx
  exact List.all_eq_true.mp h x hx

/-- The suffix of `l` after its last occurrence of `c0`. -/
def afterLastChar (c0 : Char) (l : Str) : Str :=
  (l.reverse.takeWhile (· != c0)).reverse

theorem afterLastChar_not_mem (c0 : Char) (l : Str) : c0 ∉ afterLastChar c0 l := by
  intro hm
  unfold afterLastChar at hm
  rw [List.mem_reverse] at hm
  have := List.mem_takeWhile_imp hm
  simp at this

theorem lastChar_decomp {c0 : Char} {s : Str} (h : c0 ∈ s) :
    ∃ u, s = u ++ c0 :: afterLastChar c0 s := by
  have hmem : c0 ∈ s.reverse := List.mem_reverse.mpr h
  have hne : s.reverse.dropWhile (· != c0) ≠ [] := by
    intro hnil
    have heq : s.reverse.takeWhile (· != c0) = s.reverse := by
      have h2 := List.takeWhile_append_dropWhile (p := (· != c0)) (l := s.reverse)
      rw [hnil, List.append_nil] at h2
      exact h2
    rw [← heq] at hmem
    have := List.mem_takeWhile_imp hmem
    simp at this
  obtain ⟨c, rest, hd, hpc⟩ := dropWhile_head_decomp hne
  have hc : c = c0 := by simpa using hpc
  rw [hc] at hd
  have hsplit : s.reverse = s.reverse.takeWhile (· != c0) ++ c0 :: rest := by
    conv_lhs => rw [← List.takeWhile_append_dropWhile (p := (· != c0)) (l := s.reverse)]
    rw [hd]
  refine ⟨rest.reverse, ?_⟩
  unfold afterLastChar
  set T := s.reverse.takeWhile (· != c0) with hT
  have hs := congrArg List.reverse hsplit
  rw [List.reverse_reverse, List.reverse_append, List.reverse_cons] at hs
  rw [hs]
  simp

theorem firstChar_decomp {c0 : Char} {s : Str} (h : c0 ∈ s) :
    ∃ w, s = s.takeWhile (· != c0) ++ c0 :: w ∧ c0 ∉ s.takeWhile (· != c0) := by
  have hne : s.dropWhile (· != c0) ≠ [] := by
    intro hnil
    have heq : s.takeWhile (· != c0) = s := by
      have h2 := List.takeWhile_append_dropWhile (p := (· != c0)) (l := s)
      rw [hnil, List.append_nil] at h2
      exact h2
    rw [← heq] at h
    have := List.mem_takeWhile_imp h
    simp at this
  obtain ⟨c, rest, hd, hpc⟩ := dropWhile_head_decomp hne
  have hc : c = c0 := by simpa using hpc
  rw [hc] at hd
  refine ⟨rest, ?_, ?_⟩
  · conv_lhs => rw [← List.takeWhile_append_dropWhile (p := (· != c0)) (l := s)]
    rw [hd]
  · intro hm
    have := List.mem_takeWhile_imp hm
    simp at this

/-! Trim facts used by the splitter analysis. -/

theorem trimRight_append_ws {x w : Str} (h : allWs w = true) :
    trimRight (x ++ w) = trimRight x := by
  unfold trimRight
  rw [List.reverse_append, List.dropWhile_append]
  have hwd : w.reverse.dropWhile jsWs = [] := by
    apply dropWhile_all_nil
    rw [List.all_reverse]
    exact h
  rw [hwd]
  simp

theorem jsTrim_append_ws {x w : Str} (h : allWs w = true) :
    jsTrim (x ++ w) = jsTrim x := by
  unfold jsTrim
  rw [List.dropWhile_append]
  by_cases hx : (x.dropWhile jsWs).isEmpty = true
  · rw [if_pos hx]
    have hw : w.dropWhile jsWs = [] := dropWhile_all_nil h
    rw [hw]
    rw [List.isEmpty_iff] at hx
    rw [hx]
  · rw [if_neg hx]
    exact trimRight_append_ws h

theorem jsTrim_ws {w : Str} (h : allWs w = true) : jsTrim w = [] := by
  have h0 := jsTrim_append_ws (x := []) h
  rw [List.nil_append] at h0
  rw [h0]
  rfl

theorem semi_mem_dropWhile {l : Str} (h : ';' ∈ l) : ';' ∈ l.dropWhile jsWs := by
  have hsplit : ';' ∈ l.takeWhile jsWs ++ l.dropWhile jsWs := by
    rw [List.takeWhile_append_dropWhile]
    exact h
  rcases List.mem_append.mp hsplit with hm | hm
  · have := List.mem_takeWhile_imp hm
    exact absurd this (by decide)
  · exact hm

theorem semi_mem_jsTrim {l : Str} (h : ';' ∈ l) : ';' ∈ jsTrim l := by
  unfold jsTrim trimRight
  rw [List.mem_reverse]
  apply semi_mem_dropWhile
  rw [List.mem_reverse]
  exact semi_mem_dropWhile h

theorem jsTrim_ne_nil_of_semi {l : Str} (h : ';' ∈ l) : jsTrim l ≠ [] := by
  intro hn
  have := semi_mem_jsTrim h
  rw [hn] at this
  exact absurd this (List.not_mem_nil ';')

theorem trimRight_concat_semi (z : Str) : trimRight (z ++ [';']) = z ++ [';'] := by
  unfold trimRight
  rw [List.reverse_append]
  show ((';' :: z.reverse).dropWhile jsWs).reverse = _
  rw [List.dropWhile_cons, if_neg (by decide)]
  rw [List.reverse_cons, List.reverse_reverse]

theorem getLast_trim_semi {A W : Str} (hW : allWs W = true) :
    (jsTrim (A ++ ';' :: W)).getLast? = some ';' := by
  have h1 : jsTrim (A ++ ';' :: W) = jsTrim (A ++ [';']) := by
    rw [show (A ++ ';' :: W : Str) = (A ++ [';']) ++ W by simp]
    exact jsTrim_append_ws hW
  rw [h1]
  unfold jsTrim
  rw [List.dropWhile_append]
  by_cases hA : (A.dropWhile jsWs).isEmpty = true
  · rw [if_pos hA]
    rfl
  · rw [if_neg hA]
    rw [trimRight_concat_semi, List.getLast?_concat]

theorem trimRight_decomp (l : Str) : ∃ w, l = trimRight l ++ w ∧ allWs w = true := by
  refine ⟨(l.reverse.takeWhile jsWs).reverse, ?_, ?_⟩
  · unfold trimRight
    have h := List.takeWhile_append_dropWhile (p := jsWs) (l := l.reverse)
    have h2 := congrArg List.reverse h
    rw [List.reverse_append, List.reverse_reverse] at h2
    exact h2.symm
  · unfold allWs
    rw [List.all_reverse]
    apply List.all_eq_true.mpr
    intro x hx
    exact List.mem_takeWhile_imp hx

theorem take_two_eq {P : Str} (h : P.take 2 = ['-', '-']) : ∃ t, P = '-' :: '-' :: t := by
  match P with
  | [] => simp [List.take] at h
  | [a] => simp [List.take] at h
  | a :: b :: t =>
    refine ⟨t, ?_⟩
    simp [List.take] at h
    rw [h.1, h.2]

theorem take2_of_append {P w : Str} (h : P.take 2 = ['-', '-']) :
    (P ++ w).take 2 = ['-', '-'] := by
  obtain ⟨t, rfl⟩ := take_two_eq h
  rfl

theorem take2_trimRight {z : Str} (h : z.take 2 = ['-', '-']) :
    (trimRight z).take 2 = ['-', '-'] := by
  obtain ⟨w, hz, hw⟩ := trimRight_decomp z
  cases htr : trimRight z with
  | nil =>
    rw [htr, List.nil_append] at hz
    subst hz
    obtain ⟨t, rfl⟩ := take_two_eq h
    simp [allWs] at hw
    exact absurd hw.1 (by decide)
  | cons c1 t1 =>
    cases t1 with
    | nil =>
      rw [htr] at hz
      obtain ⟨t, hzz⟩ := take_two_eq h
      rw [hz] at hzz
      simp at hzz
      obtain ⟨hc1, hwE⟩ := hzz
      rw [hwE] at hw
      simp [allWs] at hw
      exact absurd hw.1 (by decide)
    | cons c2 t2 =>
      rw [htr] at hz
      obtain ⟨t, hzz⟩ := take_two_eq h
      rw [hz] at hzz
      simp at hzz
      rw [hzz.1, hzz.2.1]
      rfl

theorem startsWith_dashdash_iff (l : Str) :
    startsWithJS "--".data l = true ↔ l.take 2 = ['-', '-'] := by
  unfold startsWithJS
  rw [show ("--".data : Str).length = 2 from rfl]
  rw [show ("--".data : Str) = ['-', '-'] from rfl]
  simp

theorem comment_extends {a b : Str} (h : startsWithJS "--".data (jsTrim a) = true) :
    startsWithJS "--".data (jsTrim (a ++ b)) = true := by
  rw [startsWith_dashdash_iff] at h ⊢
  have hdw : (a.dropWhile jsWs).take 2 = ['-', '-'] := by
    obtain ⟨w, hz, hw⟩ := trimRight_decomp (a.dropWhile jsWs)
    have hh : jsTrim a = trimRight (a.dropWhile jsWs) := rfl
    rw [hh] at h
    rw [hz]
    exact take2_of_append h
  have hne : (a.dropWhile jsWs).isEmpty = false := by
    obtain ⟨t, ht⟩ := take_two_eq hdw
    rw [ht]
    rfl
  have hab : (a ++ b).dropWhile jsWs = a.dropWhile jsWs ++ b := by
    rw [List.dropWhile_append, hne]
    simp
  show (trimRight ((a ++ b).dropWhile jsWs)).take 2 = _
  rw [hab]
  exact take2_trimRight (take2_of_append hdw)

/-- The line discipline under which statement boundaries are robust:
either the line has no semicolon, or everything after its (then unique)
first semicolon is whitespace and the line is not a comment line. -/
def lineOKB (L : Str) : Bool :=
  !hasSemi L ||
  (allWs ((L.dropWhile (· != ';')).drop 1) && !startsWithJS "--".data (jsTrim L))

/-- The input class of the amended chunk-independence claim: every line
satisfies `lineOKB` — every semicolon is the last non-whitespace
character of its line and no comment line contains a semicolon. -/
def SafeSemis (l : Str) : Prop := ∀ L ∈ splitLines l, lineOKB L = true

instance (l : Str) : Decidable (SafeSemis l) := by
  unfold SafeSemis
  infer_instance

theorem lineOKB_decomp {L : Str} (hok : lineOKB L = true) (hs : hasSemi L = true) :
    ∃ A W, L = A ++ ';' :: W ∧ hasSemi A = false ∧ allWs W = true ∧
      startsWithJS "--".data (jsTrim L) = false := by
  have hmem : ';' ∈ L := by simpa [hasSemi] using hs
  obtain ⟨W, hL, hnot⟩ := firstChar_decomp hmem
  have hdrop : L.dropWhile (· != ';') = ';' :: W := by
    have h2 := List.takeWhile_append_dropWhile (p := (· != ';')) (l := L)
    conv_lhs at hL => rw [← h2]
    exact List.append_cancel_left hL
  refine ⟨L.takeWhile (· != ';'), W, hL, ?_, ?_, ?_⟩
  · rw [hasSemi_eq_false_iff]
    exact hnot
  · unfold lineOKB at hok
    rw [hs] at hok
    simp only [Bool.not_true, Bool.false_or, Bool.and_eq_true] at hok
    have := hok.1
    rw [hdrop] at this
    exact this
  · unfold lineOKB at hok
    rw [hs] at hok
    simp only [Bool.not_true, Bool.false_or, Bool.and_eq_true, Bool.not_eq_true'] at hok
    exact hok.2

theorem semi_split_unique : ∀ (x A y W : Str), x ++ ';' :: y = A ++ ';' :: W →
    hasSemi A = false → hasSemi W = false → x = A ∧ y = W := by
  intro x
  induction x with
  | nil =>
    intro A y W he hA hW
    cases A with
    | nil =>
      rw [List.nil_append, List.nil_append] at he
      exact ⟨rfl, List.cons.inj he |>.2⟩
    | cons c A' =>
      rw [List.nil_append] at he
      have hc := (List.cons.inj he).1
      rw [hasSemi_eq_false_iff] at hA
      exact absurd (hc ▸ List.mem_cons_self c A') hA
  | cons a x' ih =>
    intro A y W he hA hW
    cases A with
    | nil =>
      rw [List.nil_append] at he
      have hc := (List.cons.inj he).1
      have htl := (List.cons.inj he).2
      rw [hasSemi_eq_false_iff] at hW
      exact absurd (htl ▸ List.mem_append.mpr (Or.inr (List.mem_cons_self ';' y))) hW
    | cons c A' =>
      have hc := (List.cons.inj he).1
      have htl := (List.cons.inj he).2
      have hA' : hasSemi A' = false := by
        rw [hasSemi_eq_false_iff] at hA ⊢
        exact fun hm => hA (List.mem_cons_of_mem c hm)
      obtain ⟨h1, h2⟩ := ih A' y W htl hA' hW
      exact ⟨by rw [hc, h1], h2⟩

theorem lineOKB_take {a b : Str} (h : lineOKB (a ++ b) = true) : lineOKB a = true := by
  by_cases hsa : hasSemi a = true
  · have hsab : hasSemi (a ++ b) = true := by
      rw [hasSemi_append, hsa]
      rfl
    obtain ⟨A, W, heq, hA, hW, hcom⟩ := lineOKB_decomp h hsab
    have hmem : ';' ∈ a := by simpa [hasSemi] using hsa
    obtain ⟨W', ha, hnot⟩ := firstChar_decomp hmem
    have hdrop : a.dropWhile (· != ';') = ';' :: W' := by
      have h2 := List.takeWhile_append_dropWhile (p := (· != ';')) (l := a)
      conv_lhs at ha => rw [← h2]
      exact List.append_cancel_left ha
    have heq2 : a.takeWhile (· != ';') ++ ';' :: (W' ++ b) = A ++ ';' :: W := by
      rw [show (a.takeWhile (· != ';') ++ ';' :: (W' ++ b) : Str) =
        (a.takeWhile (· != ';') ++ ';' :: W') ++ b by simp]
      rw [← ha]
      exact heq
    have hAfree : hasSemi (a.takeWhile (· != ';')) = false := by
      rw [hasSemi_eq_false_iff]
      exact hnot
    have hWfree : hasSemi W = false := by
      rw [hasSemi_eq_false_iff]
      intro hm
      have := List.all_eq_true.mp hW ';' hm
      exact absurd this (by decide)
    obtain ⟨hx, hy⟩ := semi_split_unique _ _ _ _ heq2 hA hWfree
    have hW' : allWs W' = true := by
      rw [← hy] at hW
      unfold allWs at hW ⊢
      rw [List.all_append] at hW
      exact (Bool.and_eq_true_iff.mp hW).1
    have hcom' : startsWithJS "--".data (jsTrim a) = false := by
      by_contra hcc
      have hcc' : startsWithJS "--".data (jsTrim a) = true := by
        cases hcv : startsWithJS "--".data (jsTrim a)
        · exact absurd hcv hcc
        · rfl
      have := comment_extends (b := b) hcc'
      rw [this] at hcom
      exact Bool.true_eq_false.mp hcom
    unfold lineOKB
    rw [hsa, hdrop]
    simp only [Bool.not_true, Bool.false_or, Bool.and_eq_true, Bool.not_eq_true']
    refine ⟨?_, hcom'⟩
    show allWs W' = true
    exact hW'
  · unfold lineOKB
    have : hasSemi a = false := by
      cases hv : hasSemi a
      · rfl
      · exact absurd hv hsa
    rw [this]
    rfl

theorem SafeSemis_take_noNL {x y : Str} (hny : '\n' ∉ y) (h : SafeSemis (x ++ y)) :
    SafeSemis x := by
  by_cases hnx : '\n' ∈ x
  · obtain ⟨p, hx⟩ := lastChar_decomp hnx
    have hnL : '\n' ∉ afterLastChar '\n' x := afterLastChar_not_mem '\n' x
    intro L hL
    have hxsplit : splitLines x = splitLines p ++ [afterLastChar '\n' x] := by
      conv_lhs => rw [hx]
      rw [splitLines_append_newline, splitLines_no_newline hnL]
    have habsplit : splitLines (x ++ y) =
        splitLines p ++ [afterLastChar '\n' x ++ y] := by
      conv_lhs => rw [hx]
      rw [show ((p ++ '\n' :: afterLastChar '\n' x) ++ y : Str) =
        p ++ '\n' :: (afterLastChar '\n' x ++ y) by simp]
      rw [splitLines_append_newline]
      have hno : '\n' ∉ afterLastChar '\n' x ++ y := by
        intro hm
        rcases List.mem_append.mp hm with hm | hm
        exacts [hnL hm, hny hm]
      rw [splitLines_no_newline hno]
    rw [hxsplit] at hL
    rcases List.mem_append.mp hL with hm | hm
    · apply h
      rw [habsplit]
      exact List.mem_append.mpr (Or.inl hm)
    · have hLe : L = afterLastChar '\n' x := List.mem_singleton.mp hm
      subst hLe
      refine lineOKB_take (b := y) ?_
      apply h
      rw [habsplit]
      exact List.mem_append.mpr (Or.inr (List.mem_singleton.mpr rfl))
  · intro L hL
    rw [splitLines_no_newline hnx] at hL
    have hLe : L = x := List.mem_singleton.mp hL
    subst hLe
    refine lineOKB_take (b := y) ?_
    apply h
    have hno : '\n' ∉ L ++ y := by
      intro hm
      rcases List.mem_append.mp hm with hm | hm
      exacts [hnx hm, hny hm]
    rw [splitLines_no_newline hno]
    exact List.mem_singleton.mpr rfl

/-- `SafeSemis` is closed under taking prefixes: needed to apply the
step lemma at every intermediate chunk boundary. -/
theorem SafeSemis_take {x y : Str} (h : SafeSemis (x ++ y)) : SafeSemis x := by
  by_cases hny : '\n' ∈ y
  · obtain ⟨y₂, hy, hnot⟩ := firstChar_decomp hny
    have h2 : SafeSemis ((x ++ y.takeWhile (· != '\n')) ++ '\n' :: y₂) := by
      rw [show ((x ++ y.takeWhile (· != '\n')) ++ '\n' :: y₂ : Str) =
        x ++ (y.takeWhile (· != '\n') ++ '\n' :: y₂) by simp]
      rw [← hy]
      exact h
    have h1 : SafeSemis (x ++ y.takeWhile (· != '\n')) := by
      intro L hL
      apply h2
      rw [splitLines_append_newline]
      exact List.mem_append.mpr (Or.inl hL)
    exact SafeSemis_take_noNL hnot h1
  · exact SafeSemis_take_noNL hny h

/-! Parse-machine structure lemmas. -/

theorem parseFold_nil (st : PState) : parseFold st [] = st := rfl

theorem parseFold_append (st : PState) (a b : Str) :
    parseFold st (a ++ b) = parseFold (parseFold st a) b :=
  List.foldl_append ..

theorem pstep_newline (st : PState) : pstep st '\n' = lineDone st := by
  unfold pstep
  rw [if_pos (show ('\n' == '\n') = true from rfl)]

theorem lineDone_curLine (st : PState) : (lineDone st).curLine = [] := by
  by_cases h1 : ((jsTrim st.curLine).take 2 == "--".data || (jsTrim st.curLine).isEmpty) = true
  · simp only [lineDone]
    rw [if_pos h1]
  · by_cases h2 : ((jsTrim st.curLine).getLast? == some ';') = true
    · simp only [lineDone]
      rw [if_neg h1, if_pos h2]
    · simp only [lineDone]
      rw [if_neg h1, if_neg h2]

theorem parseFold_no_newline {l : Str} (h : '\n' ∉ l) (st : PState) :
    parseFold st l = { st with curLine := st.curLine ++ l } := by
  induction l generalizing st with
  | nil =>
    rw [parseFold_nil, List.append_nil]
  | cons c rest ih =>
    have hc : c ≠ '\n' := fun hcc => h (hcc ▸ List.mem_cons_self c rest)
    have hr : '\n' ∉ rest := fun hm => h (List.mem_cons_of_mem _ hm)
    show parseFold (pstep st c) rest = _
    rw [show pstep st c = { st with curLine := st.curLine ++ [c] } by
      unfold pstep
      rw [if_neg (by simpa using hc)]]
    rw [ih hr]
    simp

/-- Prefixing the emitted-statement accumulator commutes with the
machine: statements already emitted are never revisited. -/
def accPre (a : List Str) (st : PState) : PState :=
  ⟨st.curLine, st.curStmt, a ++ st.acc⟩

theorem lineDone_accPre (a : List Str) (st : PState) :
    lineDone (accPre a st) = accPre a (lineDone st) := by
  have hcl : (accPre a st).curLine = st.curLine := rfl
  have hcs : (accPre a st).curStmt = st.curStmt := rfl
  by_cases h1 : ((jsTrim st.curLine).take 2 == "--".data || (jsTrim st.curLine).isEmpty) = true
  · simp only [lineDone, hcl, hcs]
    rw [if_pos h1, if_pos h1]
    rfl
  · by_cases h2 : ((jsTrim st.curLine).getLast? == some ';') = true
    · simp only [lineDone, hcl, hcs]
      rw [if_neg h1, if_neg h1, if_pos h2, if_pos h2]
      simp only [accPre]
      rw [List.append_assoc]
    · simp only [lineDone, hcl, hcs]
      rw [if_neg h1, if_neg h1, if_neg h2, if_neg h2]
      rfl

theorem pstep_accPre (a : List Str) (st : PState) (c : Char) :
    pstep (accPre a st) c = accPre a (pstep st c) := by
  unfold pstep
  by_cases hc : (c == '\n') = true
  · rw [if_pos hc, if_pos hc]
    exact lineDone_accPre a st
  · rw [if_neg hc, if_neg hc]
    rfl

theorem parseFold_accPre (l : Str) (a : List Str) : ∀ st : PState,
    parseFold (accPre a st) l = accPre a (parseFold st l) := by
  induction l with
  | nil => intro st; rfl
  | cons c rest ih =>
    intro st
    show parseFold (pstep (accPre a st) c) rest = _
    rw [pstep_accPre, ih]
    rfl

theorem lineDone_ws {st : PState} (h : allWs st.curLine = true) :
    lineDone st = { st with curLine := [] } := by
  have hc : ((jsTrim st.curLine).take 2 == "--".data || (jsTrim st.curLine).isEmpty) = true := by
    rw [jsTrim_ws h]
    rfl
  simp only [lineDone]
  rw [if_pos hc]

theorem lineDone_flush {st : PState} {A W : Str} (hline : st.curLine = A ++ ';' :: W)
    (hW : allWs W = true)
    (hcom : startsWithJS "--".data (jsTrim st.curLine) = false) :
    lineDone st = ⟨[], [], st.acc ++ [jsTrim (st.curStmt ++ st.curLine ++ ['\n'])]⟩ := by
  have hsemi : ';' ∈ st.curLine := by
    rw [hline]
    exact List.mem_append.mpr (Or.inr (List.mem_cons_self ';' W))
  have hne : (jsTrim st.curLine).isEmpty = false := by
    cases hv : (jsTrim st.curLine).isEmpty
    · rfl
    · exact absurd (List.isEmpty_iff.mp hv) (jsTrim_ne_nil_of_semi hsemi)
  have htk : ((jsTrim st.curLine).take 2 == "--".data) = false := by
    unfold startsWithJS at hcom
    rw [show ("--".data : Str).length = 2 from rfl] at hcom
    exact hcom
  have hguard : ((jsTrim st.curLine).take 2 == "--".data || (jsTrim st.curLine).isEmpty) = false := by
    rw [hne, htk]
    rfl
  have hlast : ((jsTrim st.curLine).getLast? == some ';') = true := by
    have := getLast_trim_semi (A := A) (W := W) hW
    rw [← hline] at this
    rw [this]
    rfl
  have hstmtSemi : ';' ∈ st.curStmt ++ st.curLine ++ ['\n'] := by
    refine List.mem_append.mpr (Or.inl ?_)
    exact List.mem_append.mpr (Or.inr hsemi)
  have hstmt : (jsTrim (st.curStmt ++ st.curLine ++ ['\n'])).isEmpty = false := by
    cases hv : (jsTrim (st.curStmt ++ st.curLine ++ ['\n'])).isEmpty
    · rfl
    · exact absurd (List.isEmpty_iff.mp hv) (jsTrim_ne_nil_of_semi hstmtSemi)
  simp only [lineDone]
  rw [if_neg (by rw [hguard]; exact Bool.false_ne_true)]
  rw [if_pos hlast]
  rw [if_neg (by rw [hstmt]; exact Bool.false_ne_true)]

theorem afterLastChar_eq_self {c0 : Char} {l : Str} (h : c0 ∉ l) :
    afterLastChar c0 l = l := by
  unfold afterLastChar
  have hall : l.reverse.all (· != c0) = true := by
    apply List.all_eq_true.mpr
    intro x hx
    have hxm : x ∈ l := List.mem_reverse.mp hx
    simp only [bne_iff_ne, ne_eq]
    intro hxc
    exact h (hxc ▸ hxm)
  have hdw : l.reverse.dropWhile (· != c0) = [] := dropWhile_all_nil hall
  have h2 := List.takeWhile_append_dropWhile (p := (· != c0)) (l := l.reverse)
  rw [hdw, List.append_nil] at h2
  rw [h2, List.reverse_reverse]

theorem afterLastSemi_eq (l : Str) : afterLastSemi l = afterLastChar ';' l := rfl

theorem parseFold_curLine (l : Str) :
    (parseFold ⟨[], [], []⟩ l).curLine = afterLastChar '\n' l := by
  by_cases hn : '\n' ∈ l
  · obtain ⟨p, hp⟩ := lastChar_decomp hn
    conv_lhs => rw [hp]
    rw [show (p ++ '\n' :: afterLastChar '\n' l : Str) =
      (p ++ ['\n']) ++ afterLastChar '\n' l by simp]
    rw [parseFold_append]
    rw [parseFold_no_newline (afterLastChar_not_mem '\n' l)]
    have hcl : (parseFold ⟨[], [], []⟩ (p ++ ['\n'])).curLine = [] := by
      rw [parseFold_append]
      show (pstep (parseFold ⟨[], [], []⟩ p) '\n').curLine = []
      rw [pstep_newline]
      exact lineDone_curLine _
    simp [hcl]
  · rw [parseFold_no_newline hn]
    show [] ++ l = _
    rw [List.nil_append, afterLastChar_eq_self hn]

/-- The final-line fragment of `u` extended by a newline-free tail is a
complete line of `u ++ tail`. -/
theorem line_mem_splitLines (u tail : Str) (ht : '\n' ∉ tail) :
    afterLastChar '\n' u ++ tail ∈ splitLines (u ++ tail) := by
  by_cases hn : '\n' ∈ u
  · obtain ⟨p, hp⟩ := lastChar_decomp hn
    have hsp : splitLines (u ++ tail) =
        splitLines p ++ [afterLastChar '\n' u ++ tail] := by
      conv_lhs => rw [hp]
      rw [show ((p ++ '\n' :: afterLastChar '\n' u) ++ tail : Str) =
        p ++ '\n' :: (afterLastChar '\n' u ++ tail) by simp]
      rw [splitLines_append_newline]
      congr 1
      apply splitLines_no_newline
      intro hm
      rcases List.mem_append.mp hm with hm | hm
      exacts [afterLastChar_not_mem '\n' u hm, ht hm]
    rw [hsp]
    exact List.mem_append.mpr (Or.inr (List.mem_singleton.mpr rfl))
  · rw [afterLastChar_eq_self hn]
    have hno : '\n' ∉ u ++ tail := by
      intro hm
      rcases List.mem_append.mp hm with hm | hm
      exacts [hn hm, ht hm]
    rw [splitLines_no_newline hno]
    exact List.mem_singleton.mpr rfl

theorem takeWhile_ne_self_of_mem {p : Char → Bool} {l : Str} {x : Char}
    (hx : x ∈ l) (hpx : p x = false) :
    (l.takeWhile p).length ≠ l.length := by
  intro hlen
  have heq : l.takeWhile p = l :=
    (List.takeWhile_prefix p).eq_of_length hlen
  rw [← heq] at hx
  have hmem := List.mem_takeWhile_imp hx
  rw [hpx] at hmem
  exact Bool.false_ne_true hmem

theorem takeWhile_all_self {p : Char → Bool} {l : Str} (h : l.all p = true) :
    l.takeWhile p = l := by
  have hdw : l.dropWhile p = [] := dropWhile_all_nil h
  have h2 := List.takeWhile_append_dropWhile (p := p) (l := l)
  rw [hdw, List.append_nil] at h2
  exact h2

theorem afterLastSemi_append_right {c : Str} (s : Str) (hc : hasSemi c = true) :
    afterLastSemi (s ++ c) = afterLastSemi c := by
  unfold afterLastSemi
  rw [List.reverse_append, List.takeWhile_append]
  have hsm : (';' : Char) ∈ c.reverse := by
    rw [List.mem_reverse]
    simpa [hasSemi] using hc
  rw [if_neg (takeWhile_ne_self_of_mem hsm (by decide))]

theorem afterLastSemi_append_left {c : Str} (s : Str) (hc : hasSemi c = false) :
    afterLastSemi (s ++ c) = afterLastSemi s ++ c := by
  unfold afterLastSemi
  rw [List.reverse_append, List.takeWhile_append]
  have hall : c.reverse.all (· != ';') = true := by
    apply List.all_eq_true.mpr
    intro x hx
    have hxm : x ∈ c := List.mem_reverse.mp hx
    simp only [bne_iff_ne, ne_eq]
    intro hxe
    rw [hasSemi_eq_false_iff] at hc
    exact hc (hxe ▸ hxm)
  rw [if_pos (by rw [takeWhile_all_self hall])]
  rw [List.reverse_append, List.reverse_reverse]

theorem allWs_append {a b : Str} (ha : allWs a = true) (hb : allWs b = true) :
    allWs (a ++ b) = true := by
  unfold allWs at *
  rw [List.all_append, ha, hb]
  rfl

theorem jsTrim_semiline {L ws : Str} (hws : allWs ws = true) :
    jsTrim (L ++ ';' :: ws) = jsTrim (L ++ [';']) := by
  rw [show (L ++ ';' :: ws : Str) = (L ++ [';']) ++ ws by simp]
  exact jsTrim_append_ws hws

theorem flush_stmt_eq {C L ws : Str} (hws : allWs ws = true) :
    jsTrim (C ++ (L ++ ';' :: ws) ++ ['\n']) = jsTrim (C ++ L ++ [';']) := by
  have h1 : (C ++ (L ++ ';' :: ws) ++ ['\n'] : Str) =
      (C ++ L ++ [';']) ++ (ws ++ ['\n']) := by simp
  rw [h1]
  exact jsTrim_append_ws (allWs_append hws (by decide))

/-- The splitter state after a text whose tail (after the last newline
of `u`) is extended by a newline-free `tail`. -/
theorem parseFold_tail (u tail : Str) (hnt : '\n' ∉ tail) :
    parseFold ⟨[], [], []⟩ (u ++ tail) =
      ⟨afterLastChar '\n' u ++ tail, (parseFold ⟨[], [], []⟩ u).curStmt,
       (parseFold ⟨[], [], []⟩ u).acc⟩ := by
  rw [parseFold_append, parseFold_no_newline hnt]
  have h := parseFold_curLine u
  rcases hE : parseFold ⟨[], [], []⟩ u with ⟨L, C, A⟩
  rw [hE] at h
  simp only at h
  rw [h]

theorem parseFold_pure (x : Str) (hx : '\n' ∉ x) :
    parseFold ⟨[], [], []⟩ x = ⟨x, [], []⟩ := by
  rw [parseFold_no_newline hx]
  simp

theorem accPre_init (a : List Str) : (⟨[], [], a⟩ : PState) = accPre a ⟨[], [], []⟩ := by
  unfold accPre
  rw [List.append_nil]

/-- `runFromFile`'s buffer retention: what the loop keeps after a chunk. -/
def afterSemis (s : Str) : Str := if hasSemi s then afterLastSemi s else s

theorem hasSemi_cons_semi (l : Str) : hasSemi (';' :: l) = true := by
  simp [hasSemi]

theorem line_facts {full u tail : Str} (hsafe : SafeSemis full)
    (hmem : afterLastChar '\n' u ++ ';' :: tail ∈ splitLines full) :
    allWs tail = true ∧
    startsWithJS "--".data (jsTrim (afterLastChar '\n' u ++ ';' :: tail)) = false := by
  have hok := hsafe _ hmem
  have hsemi : hasSemi (afterLastChar '\n' u ++ ';' :: tail) = true := by
    rw [hasSemi_append, hasSemi_cons_semi]
    exact Bool.or_true _
  obtain ⟨A, W, heq, hA, hW, hcom⟩ := lineOKB_decomp hok hsemi
  have hWns : hasSemi W = false := by
    rw [hasSemi_eq_false_iff]
    intro hm
    exact absurd (List.all_eq_true.mp hW ';' hm) (by decide)
  obtain ⟨h1, h2⟩ := semi_split_unique _ _ _ _ heq hA hWns
  exact ⟨h2 ▸ hW, hcom⟩

/-- Compositionality of the splitter at a chunk boundary: for safe
input, parsing `s ++ c` emits the statements of `s` followed by the
statements of the retained buffer extended by `c`. -/
theorem parse_split (s c : Str) (hsafe : SafeSemis (s ++ c)) :
    parse (s ++ c) = parse s ++ parse (afterSemis s ++ c) := by
  by_cases hs : hasSemi s = true
  · unfold afterSemis
    rw [if_pos hs, afterLastSemi_eq]
    have hsm : (';' : Char) ∈ s := by simpa [hasSemi] using hs
    obtain ⟨u, hu⟩ := lastChar_decomp hsm
    have hwns : hasSemi (afterLastChar ';' s) = false := by
      rw [hasSemi_eq_false_iff]
      exact afterLastChar_not_mem ';' s
    generalize hwdef : afterLastChar ';' s = w at hu hwns
    by_cases hnw : '\n' ∈ w
    · -- the retained tail itself contains a newline: the semicolon line
      -- of s closes inside s
      obtain ⟨w2, hw12, hnw1⟩ := firstChar_decomp hnw
      generalize hw1def : w.takeWhile (· != '\n') = w1 at hw12 hnw1
      have hw2s : hasSemi w2 = false := by
        rw [hasSemi_eq_false_iff] at hwns ⊢
        intro hm
        exact hwns (hw12 ▸ List.mem_append.mpr (Or.inr (List.mem_cons_of_mem _ hm)))
      have hnt : '\n' ∉ (';' :: w1 : Str) := by
        intro hm
        rcases List.mem_cons.mp hm with hm | hm
        · exact absurd hm (by decide)
        · exact hnw1 hm
      have hsplit : (s ++ c : Str) = (u ++ ';' :: w1) ++ '\n' :: (w2 ++ c) := by
        rw [hu, hw12]
        simp
      have hmem : afterLastChar '\n' u ++ ';' :: w1 ∈ splitLines (s ++ c) := by
        rw [hsplit, splitLines_append_newline]
        exact List.mem_append.mpr (Or.inl (line_mem_splitLines u (';' :: w1) hnt))
      obtain ⟨hw1ws, hcom⟩ := line_facts hsafe hmem
      have hG : parseFold ⟨[], [], []⟩ (u ++ ';' :: w1) =
          ⟨afterLastChar '\n' u ++ ';' :: w1, (parseFold ⟨[], [], []⟩ u).curStmt,
           (parseFold ⟨[], [], []⟩ u).acc⟩ :=
        parseFold_tail u (';' :: w1) hnt
      have hflush : lineDone ⟨afterLastChar '\n' u ++ ';' :: w1,
          (parseFold ⟨[], [], []⟩ u).curStmt, (parseFold ⟨[], [], []⟩ u).acc⟩ =
          ⟨[], [], (parseFold ⟨[], [], []⟩ u).acc ++
            [jsTrim ((parseFold ⟨[], [], []⟩ u).curStmt ++
              (afterLastChar '\n' u ++ ';' :: w1) ++ ['\n'])]⟩ :=
        lineDone_flush rfl hw1ws hcom
      have hustep : parseFold ⟨[], [], []⟩ ((u ++ ';' :: w1) ++ ['\n']) =
          ⟨[], [], (parseFold ⟨[], [], []⟩ u).acc ++
            [jsTrim ((parseFold ⟨[], [], []⟩ u).curStmt ++
              (afterLastChar '\n' u ++ ';' :: w1) ++ ['\n'])]⟩ := by
        rw [parseFold_append, hG]
        show pstep _ '\n' = _
        rw [pstep_newline, hflush]
      have hwn : parseFold ⟨[], [], []⟩ (w1 ++ ['\n']) = ⟨[], [], []⟩ := by
        rw [parseFold_append, parseFold_pure w1 hnw1]
        show pstep _ '\n' = _
        rw [pstep_newline, lineDone_ws hw1ws]
      have hSC : parseFold ⟨[], [], []⟩ (s ++ c) =
          accPre ((parseFold ⟨[], [], []⟩ u).acc ++
            [jsTrim ((parseFold ⟨[], [], []⟩ u).curStmt ++
              (afterLastChar '\n' u ++ ';' :: w1) ++ ['\n'])])
            (parseFold ⟨[], [], []⟩ (w2 ++ c)) := by
        rw [hsplit,
          show ((u ++ ';' :: w1) ++ '\n' :: (w2 ++ c) : Str) =
            ((u ++ ';' :: w1) ++ ['\n']) ++ (w2 ++ c) by simp,
          parseFold_append, hustep, accPre_init, parseFold_accPre]
      have hSs : parseFold ⟨[], [], []⟩ s =
          accPre ((parseFold ⟨[], [], []⟩ u).acc ++
            [jsTrim ((parseFold ⟨[], [], []⟩ u).curStmt ++
              (afterLastChar '\n' u ++ ';' :: w1) ++ ['\n'])])
            (parseFold ⟨[], [], []⟩ w2) := by
        rw [hu, hw12,
          show (u ++ ';' :: (w1 ++ '\n' :: w2) : Str) =
            ((u ++ ';' :: w1) ++ ['\n']) ++ w2 by simp,
          parseFold_append, hustep, accPre_init, parseFold_accPre]
      have hWc : parseFold ⟨[], [], []⟩ (w ++ c) = parseFold ⟨[], [], []⟩ (w2 ++ c) := by
        rw [hw12,
          show ((w1 ++ '\n' :: w2) ++ c : Str) = (w1 ++ ['\n']) ++ (w2 ++ c) by simp,
          parseFold_append, hwn]
      have hpw2 : parse w2 = [] := parse_eq_nil_of_no_semi hw2s
      unfold parse at hpw2 ⊢
      rw [hSC, hSs, hWc, lineDone_accPre, lineDone_accPre]
      simp only [accPre]
      rw [hpw2]
      simp
    · -- the retained tail has no newline: s ends inside the semicolon
      -- line
      have hnt2 : '\n' ∉ (';' :: w : Str) := by
        intro hm
        rcases List.mem_cons.mp hm with hm | hm
        · exact absurd hm (by decide)
        · exact hnw hm
      have hsw : parseFold ⟨[], [], []⟩ s =
          ⟨afterLastChar '\n' u ++ ';' :: w, (parseFold ⟨[], [], []⟩ u).curStmt,
           (parseFold ⟨[], [], []⟩ u).acc⟩ := by
        rw [hu]
        exact parseFold_tail u (';' :: w) hnt2
      by_cases hnc : '\n' ∈ c
      · obtain ⟨c2, hc12, hnc1⟩ := firstChar_decomp hnc
        generalize hc1def : c.takeWhile (· != '\n') = c1 at hc12 hnc1
        have hnt3 : '\n' ∉ (';' :: (w ++ c1) : Str) := by
          intro hm
          rcases List.mem_cons.mp hm with hm | hm
          · exact absurd hm (by decide)
          · rcases List.mem_append.mp hm with hm | hm
            exacts [hnw hm, hnc1 hm]
        have hsplit : (s ++ c : Str) = (u ++ ';' :: (w ++ c1)) ++ '\n' :: c2 := by
          rw [hu, hc12]
          simp
        have hmem : afterLastChar '\n' u ++ ';' :: (w ++ c1) ∈ splitLines (s ++ c) := by
          rw [hsplit, splitLines_append_newline]
          exact List.mem_append.mpr (Or.inl (line_mem_splitLines u (';' :: (w ++ c1)) hnt3))
        obtain ⟨hwc1, hcom⟩ := line_facts hsafe hmem
        have hwws : allWs w = true := by
          unfold allWs at hwc1 ⊢
          rw [List.all_append] at hwc1
          exact (Bool.and_eq_true_iff.mp hwc1).1
        have hcom2 : startsWithJS "--".data
            (jsTrim (afterLastChar '\n' u ++ ';' :: w)) = false := by
          have hJ : jsTrim (afterLastChar '\n' u ++ ';' :: w) =
              jsTrim (afterLastChar '\n' u ++ ';' :: (w ++ c1)) := by
            rw [show (afterLastChar '\n' u ++ ';' :: w : Str) =
              afterLastChar '\n' u ++ [';'] ++ w by simp]
            rw [show (afterLastChar '\n' u ++ ';' :: (w ++ c1) : Str) =
              afterLastChar '\n' u ++ [';'] ++ (w ++ c1) by simp]
            rw [jsTrim_append_ws hwws, jsTrim_append_ws hwc1]
          rw [hJ]
          exact hcom
        have hG : parseFold ⟨[], [], []⟩ (u ++ ';' :: (w ++ c1)) =
            ⟨afterLastChar '\n' u ++ ';' :: (w ++ c1),
             (parseFold ⟨[], [], []⟩ u).curStmt, (parseFold ⟨[], [], []⟩ u).acc⟩ :=
          parseFold_tail u (';' :: (w ++ c1)) hnt3
        have hflush1 : lineDone ⟨afterLastChar '\n' u ++ ';' :: (w ++ c1),
            (parseFold ⟨[], [], []⟩ u).curStmt, (parseFold ⟨[], [], []⟩ u).acc⟩ =
            ⟨[], [], (parseFold ⟨[], [], []⟩ u).acc ++
              [jsTrim ((parseFold ⟨[], [], []⟩ u).curStmt ++
                (afterLastChar '\n' u ++ ';' :: (w ++ c1)) ++ ['\n'])]⟩ :=
          lineDone_flush rfl hwc1 hcom
        have hflush2 : lineDone ⟨afterLastChar '\n' u ++ ';' :: w,
            (parseFold ⟨[], [], []⟩ u).curStmt, (parseFold ⟨[], [], []⟩ u).acc⟩ =
            ⟨[], [], (parseFold ⟨[], [], []⟩ u).acc ++
              [jsTrim ((parseFold ⟨[], [], []⟩ u).curStmt ++
                (afterLastChar '\n' u ++ ';' :: w) ++ ['\n'])]⟩ :=
          lineDone_flush rfl hwws hcom2
        have hσ : jsTrim ((parseFold ⟨[], [], []⟩ u).curStmt ++
              (afterLastChar '\n' u ++ ';' :: (w ++ c1)) ++ ['\n']) =
            jsTrim ((parseFold ⟨[], [], []⟩ u).curStmt ++
              (afterLastChar '\n' u ++ ';' :: w) ++ ['\n']) := by
          rw [flush_stmt_eq hwc1, flush_stmt_eq hwws]
        have hustep : parseFold ⟨[], [], []⟩ ((u ++ ';' :: (w ++ c1)) ++ ['\n']) =
            ⟨[], [], (parseFold ⟨[], [], []⟩ u).acc ++
              [jsTrim ((parseFold ⟨[], [], []⟩ u).curStmt ++
                (afterLastChar '\n' u ++ ';' :: w) ++ ['\n'])]⟩ := by
          rw [parseFold_append, hG]
          show pstep _ '\n' = _
          rw [pstep_newline, hflush1, hσ]
        have hwn : parseFold ⟨[], [], []⟩ ((w ++ c1) ++ ['\n']) = ⟨[], [], []⟩ := by
          rw [parseFold_append, parseFold_pure (w ++ c1) (by
            intro hm
            rcases List.mem_append.mp hm with hm | hm
            exacts [hnw hm, hnc1 hm])]
          show pstep _ '\n' = _
          rw [pstep_newline, lineDone_ws hwc1]
        have hSC : parseFold ⟨[], [], []⟩ (s ++ c) =
            accPre ((parseFold ⟨[], [], []⟩ u).acc ++
              [jsTrim ((parseFold ⟨[], [], []⟩ u).curStmt ++
                (afterLastChar '\n' u ++ ';' :: w) ++ ['\n'])])
              (parseFold ⟨[], [], []⟩ c2) := by
          rw [hsplit,
            show ((u ++ ';' :: (w ++ c1)) ++ '\n' :: c2 : Str) =
              ((u ++ ';' :: (w ++ c1)) ++ ['\n']) ++ c2 by simp,
            parseFold_append, hustep, accPre_init, parseFold_accPre]
        have hWC : parseFold ⟨[], [], []⟩ (w ++ c) = parseFold ⟨[], [], []⟩ c2 := by
          rw [hc12,
            show (w ++ (c1 ++ '\n' :: c2) : Str) = ((w ++ c1) ++ ['\n']) ++ c2 by simp,
            parseFold_append, hwn]
        unfold parse
        rw [hSC, hsw, hWC, lineDone_accPre, hflush2]
        simp only [accPre]
      · -- no newline anywhere after the last semicolon of s
        have hntc : '\n' ∉ (';' :: (w ++ c) : Str) := by
          intro hm
          rcases List.mem_cons.mp hm with hm | hm
          · exact absurd hm (by decide)
          · rcases List.mem_append.mp hm with hm | hm
            exacts [hnw hm, hnc hm]
        have hmem : afterLastChar '\n' u ++ ';' :: (w ++ c) ∈ splitLines (s ++ c) := by
          rw [show (s ++ c : Str) = u ++ ';' :: (w ++ c) by rw [hu]; simp]
          exact line_mem_splitLines u (';' :: (w ++ c)) hntc
        obtain ⟨hwc, hcom⟩ := line_facts hsafe hmem
        have hwws : allWs w = true := by
          unfold allWs at hwc ⊢
          rw [List.all_append] at hwc
          exact (Bool.and_eq_true_iff.mp hwc).1
        have hcom2 : startsWithJS "--".data
            (jsTrim (afterLastChar '\n' u ++ ';' :: w)) = false := by
          have hJ : jsTrim (afterLastChar '\n' u ++ ';' :: w) =
              jsTrim (afterLastChar '\n' u ++ ';' :: (w ++ c)) := by
            rw [show (afterLastChar '\n' u ++ ';' :: w : Str) =
              afterLastChar '\n' u ++ [';'] ++ w by simp]
            rw [show (afterLastChar '\n' u ++ ';' :: (w ++ c) : Str) =
              afterLastChar '\n' u ++ [';'] ++ (w ++ c) by simp]
            rw [jsTrim_append_ws hwws, jsTrim_append_ws hwc]
          rw [hJ]
          exact hcom
        have hGC : parseFold ⟨[], [], []⟩ (s ++ c) =
            ⟨afterLastChar '\n' u ++ ';' :: (w ++ c),
             (parseFold ⟨[], [], []⟩ u).curStmt, (parseFold ⟨[], [], []⟩ u).acc⟩ := by
          rw [show (s ++ c : Str) = u ++ ';' :: (w ++ c) by rw [hu]; simp]
          exact parseFold_tail u (';' :: (w ++ c)) hntc
        have hσ : jsTrim ((parseFold ⟨[], [], []⟩ u).curStmt ++
              (afterLastChar '\n' u ++ ';' :: (w ++ c)) ++ ['\n']) =
            jsTrim ((parseFold ⟨[], [], []⟩ u).curStmt ++
              (afterLastChar '\n' u ++ ';' :: w) ++ ['\n']) := by
          rw [flush_stmt_eq hwc, flush_stmt_eq hwws]
        have hwcf : parseFold ⟨[], [], []⟩ (w ++ c) = ⟨w ++ c, [], []⟩ :=
          parseFold_pure (w ++ c) (by
            intro hm
            rcases List.mem_append.mp hm with hm | hm
            exacts [hnw hm, hnc hm])
        unfold parse
        rw [hGC, hsw, hwcf,
          lineDone_flush rfl hwc hcom, lineDone_flush rfl hwws hcom2,
          lineDone_ws hwc]
        simp only
        rw [hσ]
        simp
  · have hs' : hasSemi s = false := by
      cases hv : hasSemi s
      · rfl
      · exact absurd hv hs
    unfold afterSemis
    rw [if_neg (by rw [hs']; exact Bool.false_ne_true)]
    rw [parse_eq_nil_of_no_semi hs', List.nil_append]

theorem execOne_set_buffer {S : Type} (M : StoreModel S) (st : IState S) (b s : Str) :
    execOne M { st with buffer := b } s = { execOne M st s with buffer := b } := by
  unfold execOne
  have hast : ({ st with buffer := b } : IState S).store = st.store := rfl
  rw [hast]
  generalize executeStatementSafely M st.store s = p
  obtain ⟨σ', r⟩ := p
  obtain ⟨su, er, wa, tc, ra, qu⟩ := r
  cases er <;> cases wa <;> cases tc <;> cases ra <;> rfl

theorem execList_set_buffer {S : Type} (M : StoreModel S) (l : List Str) :
    ∀ (st : IState S) (b : Str),
    execList M { st with buffer := b } l = { execList M st l with buffer := b } := by
  induction l with
  | nil => intro st b; rfl
  | cons s rest ih =>
    intro st b
    show execList M (execOne M { st with buffer := b } s) rest = _
    rw [execOne_set_buffer, ih]
    rfl

/-- `chunkStep` on a state whose buffer field was just set, as a single
equation (the record update commutes with the unfolding). -/
theorem chunkStep_set_buffer {S : Type} (M : StoreModel S) (X : IState S) (b c : Str) :
    chunkStep M { X with buffer := b } c =
      if hasSemi (b ++ c) = true then
        execList M { X with buffer := afterLastSemi (b ++ c) } (parse (b ++ c))
      else { X with buffer := b ++ c } := rfl

theorem bool_eq_false {b : Bool} (h : ¬ b = true) : b = false := by
  cases b
  · rfl
  · exact absurd rfl h

/-- One chunk step from the canonical post-`s` state equals the step on
the concatenation: the loop is associative over safe input. -/
theorem chunkStep_append {S : Type} (M : StoreModel S) (σ0 : S) (s c : Str)
    (hsafe : SafeSemis (s ++ c)) :
    chunkStep M (chunkStep M (initIState σ0) s) c =
      chunkStep M (initIState σ0) (s ++ c) := by
  have hinit : initIState σ0 = { initIState σ0 with buffer := ([] : Str) } := rfl
  have h1 : chunkStep M (initIState σ0) s =
      if hasSemi s = true then
        execList M { initIState σ0 with buffer := afterLastSemi s } (parse s)
      else { initIState σ0 with buffer := s } := by
    rw [hinit, chunkStep_set_buffer, List.nil_append]
  have h2 : chunkStep M (initIState σ0) (s ++ c) =
      if hasSemi (s ++ c) = true then
        execList M { initIState σ0 with buffer := afterLastSemi (s ++ c) }
          (parse (s ++ c))
      else { initIState σ0 with buffer := s ++ c } := by
    rw [hinit, chunkStep_set_buffer, List.nil_append]
  by_cases hs : hasSemi s = true
  · have hsc : hasSemi (s ++ c) = true := by
      rw [hasSemi_append, hs]
      rfl
    have hps : parse (s ++ c) = parse s ++ parse (afterLastSemi s ++ c) := by
      have hp := parse_split s c hsafe
      unfold afterSemis at hp
      rw [if_pos hs] at hp
      exact hp
    rw [h1, if_pos hs, execList_set_buffer, chunkStep_set_buffer,
        h2, if_pos hsc, hps]
    by_cases hc : hasSemi c = true
    · have hbuf : hasSemi (afterLastSemi s ++ c) = true := by
        rw [hasSemi_append, hc]
        exact Bool.or_true _
      rw [if_pos hbuf, afterLastSemi_append_right _ hc,
          afterLastSemi_append_right _ hc]
      have hfold : execList M (initIState σ0)
            (parse s ++ parse (afterLastSemi s ++ c)) =
          execList M (execList M (initIState σ0) (parse s))
            (parse (afterLastSemi s ++ c)) := by
        unfold execList
        rw [List.foldl_append]
      conv_rhs => rw [execList_set_buffer]
      rw [hfold]
      exact execList_set_buffer M _ _ _
    · have hc2 : hasSemi c = false := bool_eq_false hc
      have hbuf : hasSemi (afterLastSemi s ++ c) = false := by
        rw [hasSemi_append, hasSemi_afterLastSemi, hc2]
        rfl
      rw [if_neg (by rw [hbuf]; exact Bool.false_ne_true),
          afterLastSemi_append_left _ hc2,
          parse_eq_nil_of_no_semi hbuf, List.append_nil]
      conv_rhs => rw [execList_set_buffer]
  · have hs2 : hasSemi s = false := bool_eq_false hs
    rw [h1, if_neg (by rw [hs2]; exact Bool.false_ne_true),
        chunkStep_set_buffer, h2]

/-- Folding the chunk loop over further chunks from the post-`s` state
collapses to a single step on the concatenation, over safe input. -/
theorem chunkFold_collapse {S : Type} (M : StoreModel S) (σ0 : S) :
    ∀ (l : List Str) (s : Str), SafeSemis (s ++ l.flatten) →
    List.foldl (chunkStep M) (chunkStep M (initIState σ0) s) l =
      chunkStep M (initIState σ0) (s ++ l.flatten) := by
  intro l
  induction l with
  | nil =>
    intro s _
    show chunkStep M (initIState σ0) s = chunkStep M (initIState σ0) (s ++ [])
    rw [List.append_nil]
  | cons c t ih =>
    intro s hsafe
    have hflat : (c :: t).flatten = c ++ t.flatten := rfl
    rw [hflat, ← List.append_assoc] at hsafe
    have hpre : SafeSemis (s ++ c) := SafeSemis_take hsafe
    rw [List.foldl_cons, chunkStep_append M σ0 s c hpre, ih (s ++ c) hsafe,
        hflat, ← List.append_assoc]

/-- C2 (amended): when every semicolon of the stream is the last
non-whitespace character of its line and no comment line contains a
semicolon, feeding the chunks of a partition one at a time yields the
same import result and final store as feeding the whole file at once. -/
theorem C2_amended {S : Type} (M : StoreModel S) (σ0 : S) (chunks : List Str)
    (hsafe : SafeSemis chunks.flatten) :
    runFromFile M σ0 chunks = runFromFile M σ0 [chunks.flatten] := by
  have h0 : chunkStep M (initIState σ0) [] = initIState σ0 := rfl
  have hs0 : SafeSemis (([] : Str) ++ chunks.flatten) := hsafe
  have hfold := chunkFold_collapse M σ0 chunks [] hs0
  rw [h0] at hfold
  have hone : List.foldl (chunkStep M) (initIState σ0) [chunks.flatten] =
      chunkStep M (initIState σ0) (([] : Str) ++ chunks.flatten) := rfl
  have hkey : List.foldl (chunkStep M) (initIState σ0) chunks =
      List.foldl (chunkStep M) (initIState σ0) [chunks.flatten] :=
    hfold.trans hone.symm
  have hL : runFromFile M σ0 chunks =
      (mkResult (finishStep M (List.foldl (chunkStep M) (initIState σ0) chunks)),
       (finishStep M (List.foldl (chunkStep M) (initIState σ0) chunks)).store) := rfl
  have hR : runFromFile M σ0 [chunks.flatten] =
      (mkResult (finishStep M
          (List.foldl (chunkStep M) (initIState σ0) [chunks.flatten])),
       (finishStep M
          (List.foldl (chunkStep M) (initIState σ0) [chunks.flatten])).store) := rfl
  rw [hL, hR, hkey]

/-- Witness for the amended C2: a two-chunk stream whose boundary splits
the second INSERT mid-keyword imports exactly like the whole file. -/
theorem C2_amended_witness :
    SafeSemis (["INSERT INTO t (c) VALUES (1);\nINSERT I".data,
        "NTO t (c) VALUES (2);\n".data] : List Str).flatten ∧
    runFromFile logStore []
        ["INSERT INTO t (c) VALUES (1);\nINSERT I".data,
         "NTO t (c) VALUES (2);\n".data] =
      runFromFile logStore []
        [(["INSERT INTO t (c) VALUES (1);\nINSERT I".data,
           "NTO t (c) VALUES (2);\n".data] : List Str).flatten] :=
  ⟨by decide, C2_amended logStore [] _ (by decide)⟩

/-- C5 (amended): on stream end the remaining buffer is re-parsed with the
same terminator-requiring splitter, so a trailing statement lacking its
semicolon is silently discarded: appending it to the input changes neither
the import result nor the final store. -/
theorem C5_amended {S : Type} (M : StoreModel S) (σ0 : S) (A T : Str)
    (hsafe : SafeSemis (A ++ T)) (hT : hasSemi T = false) :
    runFromFile M σ0 [A ++ T] = runFromFile M σ0 [A] := by
  have hinit : initIState σ0 = { initIState σ0 with buffer := ([] : Str) } := rfl
  have hstep : ∀ x : Str, chunkStep M (initIState σ0) x =
      if hasSemi x = true then
        execList M { initIState σ0 with buffer := afterLastSemi x } (parse x)
      else { initIState σ0 with buffer := x } := by
    intro x
    rw [hinit, chunkStep_set_buffer, List.nil_append]
  have hrun : ∀ x : Str, runFromFile M σ0 [x] =
      (mkResult (finishStep M (chunkStep M (initIState σ0) x)),
       (finishStep M (chunkStep M (initIState σ0) x)).store) := fun _ => rfl
  rw [hrun, hrun]
  by_cases hA : hasSemi A = true
  · have hAT : hasSemi (A ++ T) = true := by
      rw [hasSemi_append, hA]
      rfl
    have htail : hasSemi (afterLastSemi A ++ T) = false := by
      rw [hasSemi_append, hasSemi_afterLastSemi, hT]
      rfl
    have hps : parse (A ++ T) = parse A := by
      have hp := parse_split A T hsafe
      unfold afterSemis at hp
      rw [if_pos hA] at hp
      rw [hp, parse_eq_nil_of_no_semi htail, List.append_nil]
    have h1 : chunkStep M (initIState σ0) (A ++ T) =
        { execList M (initIState σ0) (parse A) with
          buffer := afterLastSemi A ++ T } := by
      rw [hstep, if_pos hAT, afterLastSemi_append_left _ hT, hps,
          execList_set_buffer]
    have h2 : chunkStep M (initIState σ0) A =
        { execList M (initIState σ0) (parse A) with
          buffer := afterLastSemi A } := by
      rw [hstep, if_pos hA, execList_set_buffer]
    have hb1 : parse ({ execList M (initIState σ0) (parse A) with
        buffer := afterLastSemi A ++ T } : IState S).buffer = [] := by
      rw [show ({ execList M (initIState σ0) (parse A) with
          buffer := afterLastSemi A ++ T } : IState S).buffer =
        afterLastSemi A ++ T from rfl]
      exact parse_eq_nil_of_no_semi htail
    have hb2 : parse ({ execList M (initIState σ0) (parse A) with
        buffer := afterLastSemi A } : IState S).buffer = [] := by
      rw [show ({ execList M (initIState σ0) (parse A) with
          buffer := afterLastSemi A } : IState S).buffer =
        afterLastSemi A from rfl]
      exact parse_eq_nil_of_no_semi (hasSemi_afterLastSemi A)
    rw [h1, h2, finishStep_of_parse_nil M hb1, finishStep_of_parse_nil M hb2]
    rfl
  · have hA2 : hasSemi A = false := bool_eq_false hA
    have hAT : hasSemi (A ++ T) = false := by
      rw [hasSemi_append, hA2, hT]
      rfl
    have h1 : chunkStep M (initIState σ0) (A ++ T) =
        { initIState σ0 with buffer := A ++ T } := by
      rw [hstep, if_neg (by rw [hAT]; exact Bool.false_ne_true)]
    have h2 : chunkStep M (initIState σ0) A =
        { initIState σ0 with buffer := A } := by
      rw [hstep, if_neg (by rw [hA2]; exact Bool.false_ne_true)]
    have hb1 : parse ({ initIState σ0 with buffer := A ++ T } : IState S).buffer
        = [] := by
      rw [show ({ initIState σ0 with buffer := A ++ T } : IState S).buffer =
        A ++ T from rfl]
      exact parse_eq_nil_of_no_semi hAT
    have hb2 : parse ({ initIState σ0 with buffer := A } : IState S).buffer
        = [] := by
      rw [show ({ initIState σ0 with buffer := A } : IState S).buffer =
        A from rfl]
      exact parse_eq_nil_of_no_semi hA2
    rw [h1, h2, finishStep_of_parse_nil M hb1, finishStep_of_parse_nil M hb2]
    rfl

/-- Witness for the amended C5: a terminated INSERT followed by an
unterminated one imports exactly like the terminated INSERT alone. -/
theorem C5_amended_witness :
    SafeSemis ("INSERT INTO t (c) VALUES (1);\n".data ++
        "INSERT INTO t (c) VALUES (2)".data) ∧
    hasSemi "INSERT INTO t (c) VALUES (2)".data = false ∧
    runFromFile logStore []
        ["INSERT INTO t (c) VALUES (1);\n".data ++
         "INSERT INTO t (c) VALUES (2)".data] =
      runFromFile logStore [] ["INSERT INTO t (c) VALUES (1);\n".data] :=
  ⟨by decide, by decide,
    C5_amended logStore [] "INSERT INTO t (c) VALUES (1);\n".data
      "INSERT INTO t (c) VALUES (2)".data (by decide) (by decide)⟩
